import Mathlib

set_option maxRecDepth 4000

/-!
Shallow embedding of `autoqa/reportportal_handler.py`.

The module uploads test-run artifacts to a ReportPortal backend and derives a
pass/fail status from a trajectory of recorded API interactions.  The
embedding models:

* JSON values as produced by Python's `json.load` (`JValue`); numbers are
  restricted to integers (floating-point numbers are outside the scope of
  this development) and strings are sequences of Unicode scalar values.
* the filesystem data the module reads (trajectory directories, turn
  directories, log files) as explicit Lean structures;
* the ReportPortal client as an event trace plus an oracle saying which
  client calls raise, so that the module's `try`/`except` logic can be
  stated and checked.
-/

/-- JSON values as produced by Python's `json.load`.  Objects keep their
fields in document order; `json.load` builds a `dict`, so a key occurring
twice keeps the last value (the embedding's lookup `jget` does the same). -/
inductive JValue where
  | null : JValue
  | bool : Bool → JValue
  | num : Int → JValue
  | str : String → JValue
  | arr : List JValue → JValue
  | obj : List (String × JValue) → JValue

/-- Python str-mode `\s` (the patterns of lines 142-143 are `str`
patterns, so `\s` matches Unicode whitespace): `\t\n\v\f\r`, the file and
group separators U+001C-U+001F, space, NEL U+0085, NBSP U+00A0, Ogham
space U+1680, the typographic spaces U+2000-U+200A, the line and paragraph
separators U+2028/U+2029, U+202F, U+205F and the ideographic space U+3000
— the exact set CPython's `re` accepts for `\s` on `str`. -/
def isPyWs (c : Char) : Bool :=
  (9 ≤ c.toNat && c.toNat ≤ 13) || (28 ≤ c.toNat && c.toNat ≤ 32) ||
  c.toNat = 133 || c.toNat = 160 || c.toNat = 5760 ||
  (8192 ≤ c.toNat && c.toNat ≤ 8202) || c.toNat = 8232 || c.toNat = 8233 ||
  c.toNat = 8239 || c.toNat = 8287 || c.toNat = 12288

/-- Matches a literal character sequence at the start of the input and
returns the rest (regex literal atoms). -/
def matchChars : List Char → List Char → Option (List Char)
  | [], s => some s
  | _ :: _, [] => none
  | l :: ls, c :: cs => if c = l then matchChars ls cs else none

/-- Greedily drops leading whitespace (regex `\s*`).  In the patterns of
lines 142-143 every `\s*` is followed by a non-whitespace literal, so the
greedy match needs no backtracking. -/
def dropPyWs : List Char → List Char
  | [] => []
  | c :: cs => if isPyWs c then dropPyWs cs else c :: cs

/-- Matches the regex from lines 142-143 of the source,
an opening brace, `\s*`, the literal `"result"`, `\s*`, a colon, `\s*`,
the given word (`True` or `False`), `\s*` and a closing brace,
anchored at the start of the input. -/
def matchResultAt (word : List Char) (s : List Char) : Bool :=
  (((((((matchChars ['\x7b'] s).map dropPyWs).bind
      (matchChars "\"result\"".data)).map dropPyWs).bind
      (fun r1 => (matchChars [':'] r1))).map dropPyWs).bind
      (fun r2 => ((matchChars word r2).map dropPyWs).bind
        (matchChars ['\x7d']))).isSome

/-- Model of `re.search` for the result patterns: tries every start
position, left to right. -/
def searchResult (word : List Char) : List Char → Bool
  | [] => false
  | c :: cs => matchResultAt word (c :: cs) || searchResult word cs

/-- Python `s.startswith(p)`.  Defined by structural recursion (via
`matchChars`) so that concrete instances evaluate inside the kernel. -/
def startsWithB (s p : String) : Bool := (matchChars p.data s.data).isSome

/-- Python `s.endswith(p)`: `p` matches a suffix of `s`. -/
def endsWithB (s p : String) : Bool := (matchChars p.data.reverse s.data.reverse).isSome

/-- Lexicographic comparison of character lists by code point, the order
Python uses on `str`.  (Lean's builtin `String.decidableLE` is not
kernel-reducible, hence this structural equivalent.) -/
def listLexLe : List Char → List Char → Bool
  | [], _ => true
  | _ :: _, [] => false
  | a :: as, b :: bs => if a < b then true else if b < a then false else listLexLe as bs

/-- Python `a <= b` on strings. -/
def strLeB (a b : String) : Bool := listLexLe a.data b.data

/-- Stable insertion of an element in front of the first element it is
`le`-below-or-equal to. -/
def insertSorted (le : α → α → Bool) (a : α) : List α → List α
  | [] => [a]
  | b :: bs => if le a b then a :: b :: bs else b :: insertSorted le a bs

/-- Model of Python's `sorted`.  `sorted` is a stable sort and all stable
sorts of the same list under the same total preorder produce the same
output, so insertion sort is a faithful (and kernel-reducible) model. -/
def pySorted (le : α → α → Bool) : List α → List α
  | [] => []
  | a :: as => insertSorted le a (pySorted le as)

/-- Line 142/145: the affirmative pattern is found somewhere in the text. -/
def containsTruePattern (s : String) : Bool := searchResult "True".data s.data

/-- Line 143/146: the negative pattern is found somewhere in the text. -/
def containsFalsePattern (s : String) : Bool := searchResult "False".data s.data

/-- Lines 148-156: affirmative match wins, then negative, then default. -/
def resultFromContent (content : String) : Bool :=
  if containsTruePattern content then true
  else if containsFalsePattern content then false
  else false

/-- Python `data[k]` for a json-loaded `dict`.  Returns `none` when `data`
is not an object or the key is absent; a duplicated key keeps the last
occurrence, as `json.load` does. -/
def jget : JValue → String → Option JValue
  | JValue.obj fields, k => ((fields.filter (fun p => p.1 == k)).getLast?).map (fun p => p.2)
  | _, _ => none

/-- Lines 135-138: the nested access
`data['response']['choices'][-1]['message']['content']`, guarded by the
`in`-checks and the truthiness test of `choices`.  In the source, every
step in which the current value is not an object (or `choices` is not a
nonempty list, or `content` is not a string) either makes the guarding
condition false — falling through to the `return False` of line 158 — or
raises (`TypeError`/`KeyError`, caught at line 161, also `return False`),
so the embedding returns `none` exactly for those shapes. -/
def responseContent (data : JValue) : Option String :=
  match jget data "response" with
  | none => none
  | some resp =>
    match jget resp "choices" with
    | some (JValue.arr choices) =>
      match choices.getLast? with
      | none => none
      | some lastChoice =>
        match jget lastChoice "message" with
        | none => none
        | some msg =>
          match jget msg "content" with
          | some (JValue.str content) => some content
          | _ => none
    | _ => none

/-- Decimal digit character. -/
def digitChar (n : Nat) : Char := Char.ofNat (48 + n)

/-- Lowercase hexadecimal digit character, as used by Python's
`'\u04x'`-style escapes. -/
def hexDigitChar (n : Nat) : Char :=
  if n < 10 then Char.ofNat (48 + n) else Char.ofNat (87 + n)

/-- Four lowercase hex digits of a value below 0x10000. -/
def hex4 (n : Nat) : List Char :=
  [hexDigitChar (n / 4096 % 16), hexDigitChar (n / 256 % 16),
   hexDigitChar (n / 16 % 16), hexDigitChar (n % 16)]

/-- Digit list of a natural number, most significant first.  The first
argument is fuel (any value above the digit count works; `natRepr` passes
`n + 1`), keeping the recursion structural so the kernel can evaluate it. -/
def natReprAux : Nat → Nat → List Char → List Char
  | 0, _, acc => acc
  | fuel + 1, n, acc =>
    if n < 10 then digitChar n :: acc
    else natReprAux fuel (n / 10) (digitChar (n % 10) :: acc)

/-- Decimal representation of a natural number (Python `str` on a
nonnegative `int`). -/
def natRepr (n : Nat) : List Char := natReprAux (n + 1) n []

/-- Python `str` on an `int`, also the JSON serialization of an integer. -/
def intRepr (i : Int) : List Char :=
  if i < 0 then '-' :: natRepr i.natAbs else natRepr i.natAbs

/-- Python json string escaping with the default `ensure_ascii=True`:
quote, backslash and the five short control escapes are two-character
escapes; other printable ASCII is kept; everything else becomes `\uXXXX`
(a surrogate pair for characters beyond the BMP). -/
def escapeChar (c : Char) : List Char :=
  if c = '"' then ['\\', '"']
  else if c = '\\' then ['\\', '\\']
  else if c = '\x08' then ['\\', 'b']
  else if c = '\x0c' then ['\\', 'f']
  else if c = '\n' then ['\\', 'n']
  else if c = '\r' then ['\\', 'r']
  else if c = '\t' then ['\\', 't']
  else if 32 ≤ c.toNat && c.toNat ≤ 126 then [c]
  else if c.toNat < 65536 then '\\' :: 'u' :: hex4 c.toNat
  else
    '\\' :: 'u' :: hex4 (55296 + (c.toNat - 65536) / 1024) ++
      '\\' :: 'u' :: hex4 (56320 + (c.toNat - 65536) % 1024)

/-- Escapes every character of a string body. -/
def escapeChars : List Char → List Char
  | [] => []
  | c :: cs => escapeChar c ++ escapeChars cs

/-- JSON serialization of a string, quotes included. -/
def quoteString (s : String) : List Char := '"' :: (escapeChars s.data ++ ['"'])

/-- Two spaces per nesting level (`indent=2`). -/
def indentChars (d : Nat) : List Char := List.replicate (2 * d) ' '

mutual
/-- Python `json.dumps(v, indent=2)` at nesting depth `d`, as a character
list.  With an indent, the item separator is a comma followed by a newline
and the inner indent, and the key separator is a colon and a space. -/
def dumpsVal : JValue → Nat → List Char
  | JValue.null, _ => "null".data
  | JValue.bool true, _ => "true".data
  | JValue.bool false, _ => "false".data
  | JValue.num i, _ => intRepr i
  | JValue.str s, _ => quoteString s
  | JValue.arr [], _ => ['[', ']']
  | JValue.arr (x :: xs), d =>
    '[' :: '\n' :: (indentChars (d + 1) ++ dumpsVal x (d + 1) ++ dumpsItems xs (d + 1) ++
      '\n' :: (indentChars d ++ [']']))
  | JValue.obj [], _ => ['\x7b', '\x7d']
  | JValue.obj (p :: ps), d =>
    '\x7b' :: '\n' :: (indentChars (d + 1) ++ quoteString p.1 ++ ':' :: ' ' ::
      (dumpsVal p.2 (d + 1) ++ dumpsMembers ps (d + 1) ++ '\n' :: (indentChars d ++ ['\x7d'])))

/-- Array items after the first: comma, newline, indent, item. -/
def dumpsItems : List JValue → Nat → List Char
  | [], _ => []
  | x :: xs, d => ',' :: '\n' :: (indentChars d ++ dumpsVal x d ++ dumpsItems xs d)

/-- Object members after the first: comma, newline, indent, key, colon,
space, value. -/
def dumpsMembers : List (String × JValue) → Nat → List Char
  | [], _ => []
  | p :: ps, d =>
    ',' :: '\n' :: (indentChars d ++ quoteString p.1 ++ ':' :: ' ' ::
      (dumpsVal p.2 d ++ dumpsMembers ps d))
end

/-- Line 36: `json.dumps(data, indent=2)`. -/
def json_dumps_indent2 (v : JValue) : String := String.mk (dumpsVal v 0)

/-- JSON whitespace as skipped by Python's `json.loads` (space, tab,
newline, carriage return). -/
def isJsonWs (c : Char) : Bool := c = ' ' || c = '\t' || c = '\n' || c = '\r'

/-- Drops leading JSON whitespace. -/
def skipJsonWs : List Char → List Char
  | [] => []
  | c :: cs => if isJsonWs c then skipJsonWs cs else c :: cs

/-- Value of one hexadecimal digit (Python `int(_, 16)` accepts both
cases). -/
def hexVal (c : Char) : Option Nat :=
  if 48 ≤ c.toNat && c.toNat ≤ 57 then some (c.toNat - 48)
  else if 97 ≤ c.toNat && c.toNat ≤ 102 then some (c.toNat - 87)
  else if 65 ≤ c.toNat && c.toNat ≤ 70 then some (c.toNat - 55)
  else none

/-- Value of a four-digit hexadecimal escape payload. -/
def hex4Val (a b c d : Char) : Option Nat :=
  match hexVal a, hexVal b, hexVal c, hexVal d with
  | some x, some y, some z, some w => some (4096 * x + 256 * y + 16 * z + w)
  | _, _, _, _ => none

/-- Parses a JSON string body after the opening quote, with Python
`json.loads` semantics: strict mode rejects raw control characters; the
eight short escapes and `\uXXXX` are decoded; a high/low surrogate escape
pair is combined into one character.  (Python would keep a lone surrogate
escape as a lone surrogate character, which Lean strings cannot represent;
the model rejects it instead — such strings never come out of the
serializer.)  `acc` holds the decoded characters in reverse.  The `fuel`
argument only drives the recursion: each step consumes at least one input
character, so any fuel exceeding the input length is enough. -/
def parseStringBody : Nat → List Char → List Char → Option (String × List Char)
  | 0, _, _ => none
  | fuel + 1, acc, input =>
    match input with
    | [] => none
    | c :: rest =>
      if c = '"' then some (String.mk acc.reverse, rest)
      else if c = '\\' then
        match rest with
        | [] => none
        | e :: t =>
          if e = '"' then parseStringBody fuel ('"' :: acc) t
          else if e = '\\' then parseStringBody fuel ('\\' :: acc) t
          else if e = '/' then parseStringBody fuel ('/' :: acc) t
          else if e = 'b' then parseStringBody fuel ('\x08' :: acc) t
          else if e = 'f' then parseStringBody fuel ('\x0c' :: acc) t
          else if e = 'n' then parseStringBody fuel ('\n' :: acc) t
          else if e = 'r' then parseStringBody fuel ('\r' :: acc) t
          else if e = 't' then parseStringBody fuel ('\t' :: acc) t
          else if e = 'u' then
            match t with
            | h1 :: h2 :: h3 :: h4 :: t1 =>
              match hex4Val h1 h2 h3 h4 with
              | none => none
              | some v =>
                if 55296 ≤ v && v < 56320 then
                  match t1 with
                  | b1 :: u1 :: g1 :: g2 :: g3 :: g4 :: t2 =>
                    if b1 = '\\' && u1 = 'u' then
                      match hex4Val g1 g2 g3 g4 with
                      | none => none
                      | some w =>
                        if 56320 ≤ w && w < 57344 then
                          parseStringBody fuel
                            (Char.ofNat (65536 + (v - 55296) * 1024 + (w - 56320)) :: acc) t2
                        else none
                    else none
                  | _ => none
                else if 56320 ≤ v && v < 57344 then none
                else parseStringBody fuel (Char.ofNat v :: acc) t1
            | _ => none
          else none
      else if c.toNat < 32 then none
      else parseStringBody fuel (c :: acc) rest

/-- Decimal digit test. -/
def isDigitB (c : Char) : Bool := 48 ≤ c.toNat && c.toNat ≤ 57

/-- Consumes a maximal run of decimal digits, folding them onto `acc`. -/
def parseDigitsAcc (acc : Nat) : List Char → Nat × List Char
  | [] => (acc, [])
  | c :: cs =>
    if isDigitB c then parseDigitsAcc (acc * 10 + (c.toNat - 48)) cs else (acc, c :: cs)

/-- Parses a JSON natural number literal: one or more digits, no leading
zero (except the literal `0` itself). -/
def parseNatNum : List Char → Option (Nat × List Char)
  | [] => none
  | c :: cs =>
    if isDigitB c then
      if c = '0' then
        match cs with
        | d :: _ => if isDigitB d then none else some (0, cs)
        | [] => some (0, [])
      else some (parseDigitsAcc (c.toNat - 48) cs)
    else none

/-- Whether a character list starts with a decimal digit (used to state
that a number literal is followed by a non-digit). -/
def headIsDigit : List Char → Bool
  | [] => false
  | c :: _ => isDigitB c

/-- Parses a JSON integer literal.  Model restriction: fraction and
exponent parts are not consumed (the model's numbers are integers), so a
float literal makes the surrounding parse fail rather than succeed. -/
def parseIntNum : List Char → Option (Int × List Char)
  | '-' :: rest => (parseNatNum rest).map (fun p => (-(p.1 : Int), p.2))
  | s => (parseNatNum s).map (fun p => ((p.1 : Int), p.2))

mutual
/-- Fueled JSON value parser with Python `json.loads` semantics (numbers
restricted to integers).  Leading whitespace must already be consumed.
Every recursive call decreases the fuel; `json_loads` supplies fuel larger
than any value a text of its length can denote. -/
def parseVal : Nat → List Char → Option (JValue × List Char)
  | 0, _ => none
  | fuel + 1, s =>
    match s with
    | [] => none
    | c :: rest =>
      if c = 'n' then (matchChars "ull".data rest).map (fun r => (JValue.null, r))
      else if c = 't' then (matchChars "rue".data rest).map (fun r => (JValue.bool true, r))
      else if c = 'f' then (matchChars "alse".data rest).map (fun r => (JValue.bool false, r))
      else if c = '"' then
        (parseStringBody (rest.length + 1) [] rest).map (fun p => (JValue.str p.1, p.2))
      else if c = '[' then
        match skipJsonWs rest with
        | ']' :: r => some (JValue.arr [], r)
        | r => (parseItems fuel r).map (fun p => (JValue.arr p.1, p.2))
      else if c = '\x7b' then
        match skipJsonWs rest with
        | '\x7d' :: r => some (JValue.obj [], r)
        | r => (parseMembers fuel r).map (fun p => (JValue.obj p.1, p.2))
      else if isDigitB c || c = '-' then
        (parseIntNum (c :: rest)).map (fun p => (JValue.num p.1, p.2))
      else none

/-- Parses the items of a nonempty JSON array including the closing
bracket. -/
def parseItems : Nat → List Char → Option (List JValue × List Char)
  | 0, _ => none
  | fuel + 1, s =>
    match parseVal fuel s with
    | none => none
    | some (v, r) =>
      match skipJsonWs r with
      | ',' :: r2 =>
        match parseItems fuel (skipJsonWs r2) with
        | none => none
        | some (vs, r3) => some (v :: vs, r3)
      | ']' :: r2 => some ([v], r2)
      | _ => none

/-- Parses the members of a nonempty JSON object including the closing
brace. -/
def parseMembers : Nat → List Char → Option (List (String × JValue) × List Char)
  | 0, _ => none
  | fuel + 1, s =>
    match s with
    | '"' :: rest =>
      match parseStringBody (rest.length + 1) [] rest with
      | none => none
      | some (k, r) =>
        match skipJsonWs r with
        | ':' :: r2 =>
          match parseVal fuel (skipJsonWs r2) with
          | none => none
          | some (v, r3) =>
            match skipJsonWs r3 with
            | ',' :: r4 =>
              match parseMembers fuel (skipJsonWs r4) with
              | none => none
              | some (ps, r5) => some ((k, v) :: ps, r5)
            | '\x7d' :: r4 => some ([(k, v)], r4)
            | _ => none
        | _ => none
    | _ => none
end

/-- Python `json.loads` (on the integer-number fragment): skip leading
whitespace, parse one value, require only whitespace after it. -/
def json_loads (t : String) : Option JValue :=
  match parseVal (t.data.length + 1) (skipJsonWs t.data) with
  | some (v, r) => if (skipJsonWs r).isEmpty then some v else none
  | none => none

mutual
/-- Fuel needed by `parseVal` for a value (proved below). -/
def jsize : JValue → Nat
  | JValue.null => 1
  | JValue.bool _ => 1
  | JValue.num _ => 1
  | JValue.str _ => 1
  | JValue.arr xs => 1 + jsizeItems xs
  | JValue.obj ps => 1 + jsizeMembers ps

/-- Fuel needed by `parseItems` for an item list. -/
def jsizeItems : List JValue → Nat
  | [] => 1
  | x :: xs => 1 + jsize x + jsizeItems xs

/-- Fuel needed by `parseMembers` for a member list. -/
def jsizeMembers : List (String × JValue) → Nat
  | [] => 1
  | p :: ps => 1 + jsize p.2 + jsizeMembers ps
end

/-- A directory entry inside a turn directory.  `textJson` is the result
of `open(...)` plus `json.load`: `some v` when both succeed, `none` when
either raises (unreadable file, a subdirectory, malformed JSON).  `binOk`
says whether `open(..., "rb")` plus `read()` succeeds.  `errText` stands
for the `str(e)` of the exception used in error messages. -/
structure FileNode where
  name : String
  textJson : Option JValue
  binOk : Bool
  errText : String

/-- An entry of the trajectory directory as seen by `os.listdir`:
its name, whether `os.path.isdir` holds, and — when it is a directory —
its own `os.listdir` contents. -/
structure TrajEntry where
  name : String
  isDir : Bool
  files : List FileNode

/-- Model of `sorted` on a list of strings (directory names are unique, so
stability is irrelevant here). -/
def sortedStrings (l : List String) : List String := pySorted strLeB l

/-- Comparison of directory entries by name, for `sorted(os.listdir(...))`-style
selections carried out directly on the entries (listdir names are unique,
so sorting entries by name agrees with sorting the names and looking the
chosen name up). -/
def nodeLeB (a b : FileNode) : Bool := strLeB a.name b.name

/-- Lines 104-105: names of entries that are directories and start with
`turn_`. -/
def turnFolderNames (entries : List TrajEntry) : List String :=
  (entries.filter (fun e => e.isDir && startsWithB e.name "turn_")).map (fun e => e.name)

/-- Model of `os.listdir(os.path.join(trajectory_dir, name))`: the files of
the entry with that name (directory names are unique; the default `[]` is
unreachable when the name comes from the listing itself). -/
def listdirOf (entries : List TrajEntry) (dirName : String) : List FileNode :=
  ((entries.find? (fun e => e.name == dirName)).map (fun e => e.files)).getD []

/-- Line 119: the response-file name filter. -/
def isResponseFileName (n : String) : Bool :=
  startsWithB n "api_call_" && endsWithB n "_response.json"

/-- Lines 118-119: entries of the last turn directory whose names match the
response-file pattern (the source checks only the name, not that the entry
is a regular file). -/
def responseFilesOf (files : List FileNode) : List FileNode :=
  files.filter (fun f => isResponseFileName f.name)

/-- Lines 93-163, `extract_test_result_from_trajectory`.  The argument is
`none` when `trajectory_dir` is empty/`None` or `os.path.exists` fails
(line 98).  `if not turn_folders` of line 107 is modelled by `getLast?`
returning `none` on the empty sorted list. -/
def extract_test_result_from_trajectory (traj : Option (List TrajEntry)) : Bool :=
  match traj with
  | none => false
  | some entries =>
    match (sortedStrings (turnFolderNames entries)).getLast? with
    | none => false
    | some last_turn =>
      match (pySorted nodeLeB (responseFilesOf (listdirOf entries last_turn))).getLast? with
      | none => false
      | some rf =>
        match rf.textJson with
        | none => false
        | some data =>
          match responseContent data with
          | some content => resultFromContent content
          | none => false

/-- Python `s.replace(pat, repl)` on character lists: leftmost,
non-overlapping, all occurrences.  The fuel argument keeps the recursion
structural; `strReplace` passes the input length plus one, which is always
enough because every step consumes at least one character (patterns used
by the source are nonempty). -/
def replaceListAux : Nat → List Char → List Char → List Char → List Char
  | 0, _, _, s => s
  | fuel + 1, pat, repl, s =>
    match s with
    | [] => []
    | c :: cs =>
      match matchChars pat (c :: cs) with
      | some rest => repl ++ replaceListAux fuel pat repl rest
      | none => c :: replaceListAux fuel pat repl cs

/-- Python `s.replace(pat, repl)`. -/
def strReplace (s pat repl : String) : String :=
  String.mk (replaceListAux (s.data.length + 1) pat.data repl.data s.data)

/-- Lines 297/338: `test_path.replace('\\', '/').replace('.txt', '').replace('/', '__')`. -/
def fmtTestPath (test_path : String) : String :=
  strReplace (strReplace (strReplace test_path "\\" "/") ".txt" "") "/" "__"

/-- An attachment passed to `client.log`: its name, MIME type, and — for
text attachments — the text payload (binary payloads are opaque here). -/
structure Attachment where
  name : String
  mime : String
  textData : Option String
deriving DecidableEq

/-- One observable call to the ReportPortal client: item creation (id,
name, item type), a log entry (level, message, item id, optional
attachment), or item finalization (item id, status). -/
inductive Event where
  | startItem : Nat → String → String → Event
  | logEntry : String → String → Nat → Option Attachment → Event
  | finishItem : Nat → String → Event
deriving DecidableEq

/-- Which client calls raise, by call kind and per-kind call index.  The
backend is external; any call may raise at the Python level. -/
structure Oracle where
  startRaises : Nat → Bool
  logRaises : Nat → Bool
  finishRaises : Nat → Bool

/-- Client state: next fresh item id, per-kind call counters, and the
trace of successful calls. -/
structure St where
  nextId : Nat
  nStart : Nat
  nLog : Nat
  nFinish : Nat
  events : List Event
deriving DecidableEq

/-- The well-behaved backend: no client call raises. -/
def noRaise : Oracle := ⟨fun _ => false, fun _ => false, fun _ => false⟩

/-- A backend whose every call raises. -/
def allRaise : Oracle := ⟨fun _ => true, fun _ => true, fun _ => true⟩

/-- Initial client state. -/
def st0 : St := ⟨0, 0, 0, 0, []⟩

/-- `client.start_test_item`: may raise; on success returns a fresh item
id and records the creation. -/
def rpStart (o : Oracle) (name itemType : String) (s : St) : Except Unit Nat × St :=
  if o.startRaises s.nStart then
    (Except.error (), { s with nStart := s.nStart + 1 })
  else
    (Except.ok s.nextId,
     { s with nStart := s.nStart + 1, nextId := s.nextId + 1,
              events := s.events ++ [Event.startItem s.nextId name itemType] })

/-- `client.log`: may raise; on success records the entry. -/
def rpLog (o : Oracle) (level message : String) (item : Nat) (att : Option Attachment)
    (s : St) : Except Unit Unit × St :=
  if o.logRaises s.nLog then
    (Except.error (), { s with nLog := s.nLog + 1 })
  else
    (Except.ok (),
     { s with nLog := s.nLog + 1,
              events := s.events ++ [Event.logEntry level message item att] })

/-- `client.finish_test_item`: may raise; on success records the
finalization. -/
def rpFinish (o : Oracle) (item : Nat) (status : String) (s : St) : Except Unit Unit × St :=
  if o.finishRaises s.nFinish then
    (Except.error (), { s with nFinish := s.nFinish + 1 })
  else
    (Except.ok (),
     { s with nFinish := s.nFinish + 1,
              events := s.events ++ [Event.finishItem item status] })

/-- Lines 26-71: the file loop of `upload_turn_folder`, carrying the
`uploaded` and `step_has_errors` flags.  `mimetypes.guess_type` on a name
ending in `.png` always yields `image/png`.  Each recognized file's work
is wrapped in its own `try` (lines 29-47 and 49-71): a raise from the
per-file INFO `client.log` goes to the per-file `except`, which logs one
ERROR entry and sets `step_has_errors` before the loop continues; only a
raise from that handler's own `client.log` propagates.  As elsewhere in
the model, the `str(e)` of a client raise rendered into a message is not
modelled (the empty string stands for it). -/
def uploadTurnFiles (o : Oracle) (stepId : Nat) :
    List FileNode → Bool → Bool → St → Except Unit (Bool × Bool) × St
  | [], uploaded, hasErr, s => (Except.ok (uploaded, hasErr), s)
  | f :: rest, uploaded, hasErr, s =>
    if endsWithB f.name ".json" then
      match f.textJson with
      | some data =>
        match rpLog o "INFO" ("[" ++ f.name ++ "]\n" ++ json_dumps_indent2 data) stepId none s with
        | (Except.ok _, s2) => uploadTurnFiles o stepId rest true hasErr s2
        | (Except.error _, s2) =>
          match rpLog o "ERROR" ("[ERROR parsing " ++ f.name ++ "] ") stepId none s2 with
          | (Except.error u, s3) => (Except.error u, s3)
          | (Except.ok _, s3) => uploadTurnFiles o stepId rest uploaded true s3
      | none =>
        match rpLog o "ERROR" ("[ERROR parsing " ++ f.name ++ "] " ++ f.errText) stepId none s with
        | (Except.error u, s2) => (Except.error u, s2)
        | (Except.ok _, s2) => uploadTurnFiles o stepId rest uploaded true s2
    else if endsWithB f.name ".png" then
      if f.binOk then
        match rpLog o "INFO" ("Screenshot: " ++ f.name) stepId
            (some ⟨f.name, "image/png", none⟩) s with
        | (Except.ok _, s2) => uploadTurnFiles o stepId rest true hasErr s2
        | (Except.error _, s2) =>
          match rpLog o "ERROR" ("[ERROR attaching " ++ f.name ++ "] ") stepId none s2 with
          | (Except.error u, s3) => (Except.error u, s3)
          | (Except.ok _, s3) => uploadTurnFiles o stepId rest uploaded true s3
      else
        match rpLog o "ERROR" ("[ERROR attaching " ++ f.name ++ "] " ++ f.errText) stepId none s with
        | (Except.error u, s2) => (Except.error u, s2)
        | (Except.ok _, s2) => uploadTurnFiles o stepId rest uploaded true s2
    else uploadTurnFiles o stepId rest uploaded hasErr s

/-- Lines 12-91, `upload_turn_folder`: start a STEP item, upload the files
in lexical order, emit the no-data warning when nothing was uploaded, and
finish with FAILED when `force_fail` or any file-level error, PASSED
otherwise. -/
def upload_turn_folder (o : Oracle) (turnFiles : List FileNode)
    (turn_name : String) (force_fail : Bool) (s : St) : Except Unit Unit × St :=
  match rpStart o turn_name "STEP" s with
  | (Except.error u, s2) => (Except.error u, s2)
  | (Except.ok step_item_id, s2) =>
    match uploadTurnFiles o step_item_id (pySorted nodeLeB turnFiles) false false s2 with
    | (Except.error u, s3) => (Except.error u, s3)
    | (Except.ok (uploaded, step_has_errors), s3) =>
      match (if uploaded then (Except.ok (), s3)
             else rpLog o "WARNING" "No data found in this turn." step_item_id none s3) with
      | (Except.error u, s4) => (Except.error u, s4)
      | (Except.ok _, s4) =>
        rpFinish o step_item_id
          (if force_fail then "FAILED" else if step_has_errors then "FAILED" else "PASSED") s4

/-- A Jan application log file as discovered by the glob patterns of
`get_jan_log_paths`: name, modification time, size, and content.  Reading
uses `errors='ignore'`, so decoding always succeeds; `os.path.getsize` and
`os.path.getmtime` are modelled as total attributes of the file. -/
structure LogFile where
  name : String
  mtime : Nat
  size : Nat
  content : String
deriving DecidableEq

/-- Line 197: the application variant name. -/
def janAppType (is_nightly : Bool) : String := if is_nightly then "nightly" else "regular"

/-- Line 222: `sort(key=getmtime, reverse=True)` — newest first, stable. -/
def mtimeDescLe (a b : LogFile) : Bool := decide (b.mtime ≤ a.mtime)

/-- Lines 227-272: the per-file loop of `upload_jan_logs`.  `i` is the
1-based `enumerate` counter.  Each file's work is wrapped in its own
`try`: a raise from the size-warning or upload log call goes to the
per-file handler, whose own `client.log` raise propagates to the outer
handler. -/
def uploadJanLoop (o : Oracle) (tid : Nat) (appType : String) :
    List LogFile → Nat → St → Except Unit Unit × St
  | [], _, s => (Except.ok (), s)
  | f :: rest, i, s =>
    match (if f.size > 52428800 then
        rpLog o "WARNING" ("[INFO] Log file " ++ f.name ++ " skipped (size: " ++
          String.mk (natRepr f.size) ++ " bytes > 50MB limit)") tid none s
      else
        rpLog o "INFO" ("[INFO] Jan " ++ appType ++ " application log: " ++ f.name) tid
          (some ⟨"jan_" ++ appType ++ "_log_" ++ String.mk (natRepr i) ++ "_" ++ f.name,
                 "text/plain", some f.content⟩) s) with
    | (Except.ok _, s2) => uploadJanLoop o tid appType rest (i + 1) s2
    | (Except.error _, s2) =>
      match rpLog o "ERROR" ("Failed to upload log file " ++ f.name ++ ": ") tid none s2 with
      | (Except.ok _, s3) => uploadJanLoop o tid appType rest (i + 1) s3
      | (Except.error u, s3) => (Except.error u, s3)

/-- Lines 192-289, `upload_jan_logs`, from the point where the glob
results are known (`all_log_files`).  An empty discovery logs a warning
and returns (line 210-218, outside any `try`); otherwise the files are
sorted newest-first, capped to `max_log_files`, uploaded, and a summary
entry is emitted; any raise inside the outer `try` is answered with one
ERROR log whose own failure propagates. -/
def upload_jan_logs (o : Oracle) (test_item_id : Nat) (all_log_files : List LogFile)
    (is_nightly : Bool) (max_log_files : Nat) (s : St) : Except Unit Unit × St :=
  let app_type := janAppType is_nightly
  if all_log_files.isEmpty then
    match rpLog o "WARNING" ("[INFO] No Jan " ++ app_type ++ " application logs found")
        test_item_id none s with
    | (Except.error u, s2) => (Except.error u, s2)
    | (Except.ok _, s2) => (Except.ok (), s2)
  else
    let log_files_to_upload := (pySorted mtimeDescLe all_log_files).take max_log_files
    match (match uploadJanLoop o test_item_id app_type log_files_to_upload 1 s with
      | (Except.error u, s2) => (Except.error u, s2)
      | (Except.ok _, s2) =>
        rpLog o "INFO" ("[INFO] Uploaded " ++ String.mk (natRepr log_files_to_upload.length) ++
          " Jan " ++ app_type ++ " log files (total available: " ++
          String.mk (natRepr all_log_files.length) ++ ")") test_item_id none s2) with
    | (Except.ok _, s2) => (Except.ok (), s2)
    | (Except.error _, s2) =>
      match rpLog o "ERROR" ("Error processing Jan " ++ app_type ++ " logs: ")
          test_item_id none s2 with
      | (Except.ok _, s3) => (Except.ok (), s3)
      | (Except.error u, s3) => (Except.error u, s3)

/-- The screen-recording file: whether `os.path.exists` holds and whether
opening/reading it succeeds.  A `None` or empty `video_path` is the
`none` case of the option at the call sites. -/
structure VideoF where
  found : Bool
  readOk : Bool

/-- Lines 375-410: the video step of the main `try` block.  A raise while
reading or logging the video is caught at line 395 and answered with a
WARNING log whose own raise propagates; a missing video logs a WARNING
directly (line 405), whose raise also propagates. -/
def videoBlock (o : Oracle) (tid : Nat) (ftp : String) (video : Option VideoF)
    (s : St) : Except Unit Unit × St :=
  match video with
  | some v =>
    if v.found then
      if v.readOk then
        match rpLog o "INFO" "[INFO] Screen recording of test execution" tid
            (some ⟨"test_recording_" ++ ftp ++ ".mp4", "video/x-msvideo", none⟩) s with
        | (Except.ok _, s2) => (Except.ok (), s2)
        | (Except.error _, s2) =>
          rpLog o "WARNING" "Failed to upload screen recording: " tid none s2
      else rpLog o "WARNING" "Failed to upload screen recording: " tid none s
    else rpLog o "WARNING" "No screen recording available for this test" tid none s
  | none => rpLog o "WARNING" "No screen recording available for this test" tid none s

/-- Lines 420-422: upload every turn directory in lexical order. -/
def uploadTurnsLoop (o : Oracle) (entries : List TrajEntry) (ff : Bool) :
    List String → St → Except Unit Unit × St
  | [], s => (Except.ok (), s)
  | n :: rest, s =>
    match upload_turn_folder o (listdirOf entries n) n ff s with
    | (Except.error u, s2) => (Except.error u, s2)
    | (Except.ok _, s2) => uploadTurnsLoop o entries ff rest s2

/-- Lines 362-429: the body of the main `try` of
`upload_test_results_to_rp` — summary log, video step, application logs,
turn uploads, and the successful finalization. -/
def mainBlock (o : Oracle) (tid : Nat) (entries : List TrajEntry)
    (final_status status_message : String) (video : Option VideoF) (ftp : String)
    (janLogs : List LogFile) (is_nightly : Bool) (s : St) : Except Unit Unit × St :=
  let turn_folders := turnFolderNames entries
  let status_emoji := if final_status = "PASSED" then "[SUCCESS]" else "[FAILED]"
  match rpLog o (if final_status = "PASSED" then "INFO" else "ERROR")
      (status_emoji ++ " TEST " ++ final_status ++ " " ++ status_emoji ++
        "\nReason: " ++ status_message ++ "\nTotal turns: " ++
        String.mk (natRepr turn_folders.length)) tid none s with
  | (Except.error u, s2) => (Except.error u, s2)
  | (Except.ok _, s2) =>
    match videoBlock o tid ftp video s2 with
    | (Except.error u, s3) => (Except.error u, s3)
    | (Except.ok _, s3) =>
      match upload_jan_logs o tid janLogs is_nightly 5 s3 with
      | (Except.error u, s4) => (Except.error u, s4)
      | (Except.ok _, s4) =>
        match uploadTurnsLoop o entries (final_status == "FAILED")
            (sortedStrings turn_folders) s4 with
        | (Except.error u, s5) => (Except.error u, s5)
        | (Except.ok _, s5) => rpFinish o tid final_status s5

/-- Lines 291-439, `upload_test_results_to_rp`.  `traj` is `none` when
`trajectory_dir` is `None`/empty or does not exist.  In the
missing-directory branch the video `try` swallows its own failures
(its handler only calls `logger.error`), modelled by keeping the state and
discarding the error.  In the main branch, any raise inside the `try`
block is answered by finalizing the item as FAILED. -/
def upload_test_results_to_rp (o : Oracle) (test_path : String)
    (traj : Option (List TrajEntry)) (force_stopped : Bool) (video : Option VideoF)
    (janLogs : List LogFile) (is_nightly : Bool) (s : St) : Except Unit Unit × St :=
  match traj with
  | none =>
    let ftp := fmtTestPath test_path
    match rpStart o ftp "TEST" s with
    | (Except.error u, s2) => (Except.error u, s2)
    | (Except.ok tid, s2) =>
      match rpLog o "ERROR" "[FAILED] TEST FAILED [FAILED]\nNo trajectory directory found"
          tid none s2 with
      | (Except.error u, s3) => (Except.error u, s3)
      | (Except.ok _, s3) =>
        match rpFinish o tid "FAILED"
            (match video with
             | some v =>
               if v.found then
                 if v.readOk then
                   (rpLog o "INFO" "Screen recording of test execution" tid
                     (some ⟨"test_recording_" ++ ftp ++ ".mp4", "video/x-msvideo", none⟩) s3).2
                 else s3
               else s3
             | none => s3) with
        | (Except.error u, s5) => (Except.error u, s5)
        | (Except.ok _, s5) => (Except.ok (), s5)
  | some entries =>
    let ftp := fmtTestPath test_path
    let final_status := if force_stopped then "FAILED"
      else if extract_test_result_from_trajectory (some entries) then "PASSED" else "FAILED"
    let status_message := if force_stopped then "exceeded maximum turn limit (30 turns)"
      else if extract_test_result_from_trajectory (some entries) then
        "completed successfully with positive result"
      else "no valid success result found"
    match rpStart o ftp "TEST" s with
    | (Except.error u, s2) => (Except.error u, s2)
    | (Except.ok tid, s2) =>
      match mainBlock o tid entries final_status status_message video ftp janLogs
          is_nightly s2 with
      | (Except.ok _, s3) => (Except.ok (), s3)
      | (Except.error _, s3) =>
        match rpFinish o tid "FAILED" s3 with
        | (Except.error u, s4) => (Except.error u, s4)
        | (Except.ok _, s4) => (Except.ok (), s4)

/-- Spec-side reading of "the text contains the marker (with optional
whitespace)": an explicit decomposition of the text around the literal
pieces of the result pattern. -/
def ContainsResultMarker (word : String) (content : String) : Prop :=
  ∃ pre w1 w2 w3 w4 post : List Char,
    content.data = pre ++ '\x7b' :: (w1 ++ "\"result\"".data ++ w2 ++ ':' ::
      (w3 ++ word.data ++ w4 ++ '\x7d' :: post)) ∧
    (∀ c ∈ w1, isPyWs c = true) ∧ (∀ c ∈ w2, isPyWs c = true) ∧
    (∀ c ∈ w3, isPyWs c = true) ∧ (∀ c ∈ w4, isPyWs c = true)

/-- Spec-side (4.3): a file-level error of the turn upload — a `.json`
artifact that fails to parse or a `.png` artifact that fails to read. -/
def fileError (f : FileNode) : Bool :=
  (endsWithB f.name ".json" && f.textJson.isNone) || (endsWithB f.name ".png" && !f.binOk)

/-- Spec-side (4.3): a successfully processed artifact of the turn
upload. -/
def fileSuccess (f : FileNode) : Bool :=
  (endsWithB f.name ".json" && f.textJson.isSome) || (endsWithB f.name ".png" && f.binOk)

/-- Spec-side (4.4): the log entries expected for the `i`-th considered
log file — one WARNING and no attachment when it exceeds the 50 MiB
ceiling, otherwise one INFO entry with a text attachment. -/
def janFileEvents (appType : String) (tid i : Nat) (f : LogFile) : List Event :=
  if f.size > 52428800 then
    [Event.logEntry "WARNING" ("[INFO] Log file " ++ f.name ++ " skipped (size: " ++
      String.mk (natRepr f.size) ++ " bytes > 50MB limit)") tid none]
  else
    [Event.logEntry "INFO" ("[INFO] Jan " ++ appType ++ " application log: " ++ f.name) tid
      (some ⟨"jan_" ++ appType ++ "_log_" ++ String.mk (natRepr i) ++ "_" ++ f.name,
             "text/plain", some f.content⟩)]

/-- Spec-side (4.4): entries for the considered files, enumerated from
`i`. -/
def janLoopEvents (appType : String) (tid : Nat) : List LogFile → Nat → List Event
  | [], _ => []
  | f :: rest, i => janFileEvents appType tid i f ++ janLoopEvents appType tid rest (i + 1)

/-- Spec-side (4.4): the summary count entry. -/
def janSummaryEvent (appType : String) (tid uploaded total : Nat) : Event :=
  Event.logEntry "INFO" ("[INFO] Uploaded " ++ String.mk (natRepr uploaded) ++
    " Jan " ++ appType ++ " log files (total available: " ++
    String.mk (natRepr total) ++ ")") tid none

/-- A backend where only `client.log` raises (every log call). -/
def logRaiseOracle : Oracle := ⟨fun _ => false, fun _ => true, fun _ => false⟩

/-- Trace-side view of one iteration of the turn-file loop: the single
log entry emitted for a recognized artifact, nothing for others. -/
def turnFileEvents (stepId : Nat) (f : FileNode) : List Event :=
  if endsWithB f.name ".json" then
    match f.textJson with
    | some data =>
      [Event.logEntry "INFO" ("[" ++ f.name ++ "]\n" ++ json_dumps_indent2 data) stepId none]
    | none =>
      [Event.logEntry "ERROR" ("[ERROR parsing " ++ f.name ++ "] " ++ f.errText) stepId none]
  else if endsWithB f.name ".png" then
    if f.binOk then
      [Event.logEntry "INFO" ("Screenshot: " ++ f.name) stepId (some ⟨f.name, "image/png", none⟩)]
    else
      [Event.logEntry "ERROR" ("[ERROR attaching " ++ f.name ++ "] " ++ f.errText) stepId none]
  else []

/-- Trace-side view of the whole turn-file loop. -/
def turnFilesEvents (stepId : Nat) : List FileNode → List Event
  | [] => []
  | f :: rest => turnFileEvents stepId f ++ turnFilesEvents stepId rest

/-- Concrete sample content containing the affirmative marker, used to
instantiate theorems below. -/
def sampleContentTrue : String := "bla \x7b\"result\": True\x7d"

/-- Sample content containing both markers. -/
def sampleContentBoth : String := "\x7b\"result\": True\x7d \x7b\"result\": False\x7d"

/-- Sample API response JSON whose last choice's content is
`sampleContentTrue`. -/
def sampleC1Json : JValue :=
  JValue.obj [("response", JValue.obj [("choices", JValue.arr
    [JValue.obj [("message", JValue.obj [("content", JValue.str sampleContentTrue)])]])])]

/-- Sample response file holding `sampleC1Json`. -/
def sampleC1File : FileNode := ⟨"api_call_001_response.json", some sampleC1Json, true, ""⟩

/-- Sample trajectory with one turn holding `sampleC1File`. -/
def sampleC1Entries : List TrajEntry := [⟨"turn_01", true, [sampleC1File]⟩]

/-- Sample API response JSON whose last choice's content is
`sampleContentBoth`. -/
def sampleC10Json : JValue :=
  JValue.obj [("response", JValue.obj [("choices", JValue.arr
    [JValue.obj [("message", JValue.obj [("content", JValue.str sampleContentBoth)])]])])]

/-- Sample response file holding `sampleC10Json`. -/
def sampleC10File : FileNode := ⟨"api_call_001_response.json", some sampleC10Json, true, ""⟩

/-- Sample trajectory with one turn holding `sampleC10File`. -/
def sampleC10Entries : List TrajEntry := [⟨"turn_01", true, [sampleC10File]⟩]

/-- Sample trajectory for the selection claim: two turn directories, a
non-directory entry, and two response files in the later turn (the later
one unparseable). -/
def sampleC4File : FileNode := ⟨"api_call_002_response.json", none, true, "boom"⟩

/-- Sample trajectory holding `sampleC4File` as the lexically last
response file of the lexically last turn. -/
def sampleC4Entries : List TrajEntry :=
  [⟨"turn_02", true, [⟨"api_call_001_response.json", some JValue.null, true, ""⟩, sampleC4File]⟩,
   ⟨"turn_01", true, []⟩,
   ⟨"logs", false, []⟩]

/-- Sample discovered log files: one recent, one oversized, one old. -/
def sampleLogs : List LogFile :=
  [⟨"old.log", 10, 100, "aa"⟩, ⟨"big.log", 30, 99999999, "huge"⟩, ⟨"new.log", 20, 5, "bb"⟩]

theorem matchChars_eq_append : ∀ {ls s r : List Char}, matchChars ls s = some r → s = ls ++ r := by
  intro ls
  induction ls with
  | nil => intro s r h; simp [matchChars] at h; simp [h]
  | cons l lt ih =>
    intro s r h
    cases s with
    | nil => simp [matchChars] at h
    | cons c cs =>
      simp only [matchChars] at h
      by_cases hc : c = l
      · rw [if_pos hc] at h
        subst hc
        simpa using ih h
      · rw [if_neg hc] at h
        exact absurd h (by simp)

theorem matchChars_self_append (ls r : List Char) : matchChars ls (ls ++ r) = some r := by
  induction ls with
  | nil => rfl
  | cons l lt ih => simp [matchChars, ih]

theorem dropPyWs_decomp (s : List Char) :
    ∃ w, (∀ c ∈ w, isPyWs c = true) ∧ s = w ++ dropPyWs s := by
  induction s with
  | nil => exact ⟨[], by simp, rfl⟩
  | cons c cs ih =>
    by_cases hc : isPyWs c = true
    · obtain ⟨w, hw, he⟩ := ih
      refine ⟨c :: w, ?_, ?_⟩
      · intro x hx
        rcases List.mem_cons.mp hx with hx | hx
        · exact hx ▸ hc
        · exact hw x hx
      · simpa [dropPyWs, hc] using he
    · exact ⟨[], by simp, by simp [dropPyWs, hc]⟩

theorem dropPyWs_ws_append {w : List Char} (r : List Char)
    (hw : ∀ c ∈ w, isPyWs c = true) : dropPyWs (w ++ r) = dropPyWs r := by
  induction w with
  | nil => rfl
  | cons c cs ih =>
    rw [List.cons_append]
    simp only [dropPyWs]
    rw [if_pos (hw c (by simp))]
    exact ih (fun x hx => hw x (List.mem_cons_of_mem c hx))

theorem dropPyWs_cons_neg {c : Char} (r : List Char) (hc : isPyWs c = false) :
    dropPyWs (c :: r) = c :: r := by
  simp [dropPyWs, hc]

theorem matchResultAt_sound {word s : List Char} (h : matchResultAt word s = true) :
    ∃ w1 w2 w3 w4 rest,
      s = '\x7b' :: (w1 ++ "\"result\"".data ++ w2 ++ ':' ::
        (w3 ++ word ++ w4 ++ '\x7d' :: rest)) ∧
      (∀ c ∈ w1, isPyWs c = true) ∧ (∀ c ∈ w2, isPyWs c = true) ∧
      (∀ c ∈ w3, isPyWs c = true) ∧ (∀ c ∈ w4, isPyWs c = true) := by
  unfold matchResultAt at h
  rw [Option.isSome_iff_exists] at h
  obtain ⟨rlast, h⟩ := h
  rw [Option.bind_eq_some] at h
  obtain ⟨q5, h5, hD⟩ := h
  rw [Option.bind_eq_some] at hD
  obtain ⟨q6, h6, h7⟩ := hD
  rw [Option.map_eq_some'] at h6
  obtain ⟨q7, h8, h9⟩ := h6
  rw [Option.map_eq_some'] at h5
  obtain ⟨q4, h4, hq5⟩ := h5
  rw [Option.bind_eq_some] at h4
  obtain ⟨q3, h3, hcolon⟩ := h4
  rw [Option.map_eq_some'] at h3
  obtain ⟨q2, h2, hq3⟩ := h3
  rw [Option.bind_eq_some] at h2
  obtain ⟨q1, h1, hres⟩ := h2
  rw [Option.map_eq_some'] at h1
  obtain ⟨q0, hbrace, hq1⟩ := h1
  have hs : s = ['\x7b'] ++ q0 := matchChars_eq_append hbrace
  obtain ⟨w1, hw1, he1⟩ := dropPyWs_decomp q0
  rw [hq1] at he1
  have heres : q1 = "\"result\"".data ++ q2 := matchChars_eq_append hres
  obtain ⟨w2, hw2, he2⟩ := dropPyWs_decomp q2
  rw [hq3] at he2
  have hecolon : q3 = [':'] ++ q4 := matchChars_eq_append hcolon
  obtain ⟨w3, hw3, he3⟩ := dropPyWs_decomp q4
  rw [hq5] at he3
  have heword : q5 = word ++ q7 := matchChars_eq_append h8
  obtain ⟨w4, hw4, he4⟩ := dropPyWs_decomp q7
  rw [h9] at he4
  have hebrace : q6 = ['\x7d'] ++ rlast := matchChars_eq_append h7
  refine ⟨w1, w2, w3, w4, rlast, ?_, hw1, hw2, hw3, hw4⟩
  rw [hs, he1, heres, he2, hecolon, he3, heword, he4, hebrace]
  simp [List.append_assoc]

theorem matchResultAt_complete (word w1 w2 w3 w4 rest : List Char)
    (hword : ∃ c cs, word = c :: cs ∧ isPyWs c = false)
    (hw1 : ∀ c ∈ w1, isPyWs c = true) (hw2 : ∀ c ∈ w2, isPyWs c = true)
    (hw3 : ∀ c ∈ w3, isPyWs c = true) (hw4 : ∀ c ∈ w4, isPyWs c = true) :
    matchResultAt word ('\x7b' :: (w1 ++ "\"result\"".data ++ w2 ++ ':' ::
      (w3 ++ word ++ w4 ++ '\x7d' :: rest))) = true := by
  obtain ⟨hc, hcs, hwe, hwne⟩ := hword
  unfold matchResultAt
  have e0 : matchChars ['\x7b'] ('\x7b' :: (w1 ++ "\"result\"".data ++ w2 ++ ':' ::
      (w3 ++ word ++ w4 ++ '\x7d' :: rest))) =
      some (w1 ++ "\"result\"".data ++ w2 ++ ':' :: (w3 ++ word ++ w4 ++ '\x7d' :: rest)) :=
    matchChars_self_append ['\x7b'] _
  rw [e0]
  have e1 : dropPyWs (w1 ++ "\"result\"".data ++ w2 ++ ':' ::
      (w3 ++ word ++ w4 ++ '\x7d' :: rest)) =
      "\"result\"".data ++ w2 ++ ':' :: (w3 ++ word ++ w4 ++ '\x7d' :: rest) := by
    rw [List.append_assoc, List.append_assoc]
    rw [dropPyWs_ws_append _ hw1]
    have : "\"result\"".data ++ (w2 ++ ':' :: (w3 ++ word ++ w4 ++ '\x7d' :: rest)) =
        '"' :: ("result\"".data ++ (w2 ++ ':' :: (w3 ++ word ++ w4 ++ '\x7d' :: rest))) := rfl
    rw [this, dropPyWs_cons_neg _ (by decide)]
    simp [List.append_assoc]
  have e2 : matchChars "\"result\"".data
      ("\"result\"".data ++ w2 ++ ':' :: (w3 ++ word ++ w4 ++ '\x7d' :: rest)) =
      some (w2 ++ ':' :: (w3 ++ word ++ w4 ++ '\x7d' :: rest)) := by
    rw [List.append_assoc]
    exact matchChars_self_append _ _
  simp only [Option.map_some', Option.some_bind]
  rw [e1, e2]
  simp only [Option.map_some', Option.some_bind]
  have e3 : dropPyWs (w2 ++ ':' :: (w3 ++ word ++ w4 ++ '\x7d' :: rest)) =
      ':' :: (w3 ++ word ++ w4 ++ '\x7d' :: rest) := by
    rw [dropPyWs_ws_append _ hw2, dropPyWs_cons_neg _ (by decide)]
  rw [e3]
  have e4 : matchChars [':'] (':' :: (w3 ++ word ++ w4 ++ '\x7d' :: rest)) =
      some (w3 ++ word ++ w4 ++ '\x7d' :: rest) := matchChars_self_append [':'] _
  rw [e4]
  simp only [Option.map_some', Option.some_bind]
  have e5 : dropPyWs (w3 ++ word ++ w4 ++ '\x7d' :: rest) =
      word ++ (w4 ++ '\x7d' :: rest) := by
    rw [List.append_assoc, List.append_assoc, dropPyWs_ws_append _ hw3, hwe, List.cons_append]
    rw [dropPyWs_cons_neg _ hwne]
  rw [e5]
  have e6 : matchChars word (word ++ (w4 ++ '\x7d' :: rest)) = some (w4 ++ '\x7d' :: rest) :=
    matchChars_self_append _ _
  rw [e6]
  simp only [Option.map_some', Option.some_bind]
  have e7 : dropPyWs (w4 ++ '\x7d' :: rest) = '\x7d' :: rest := by
    rw [dropPyWs_ws_append _ hw4, dropPyWs_cons_neg _ (by decide)]
  rw [e7]
  have e8 : matchChars ['\x7d'] ('\x7d' :: rest) = some rest := matchChars_self_append ['\x7d'] _
  rw [e8]
  rfl

theorem searchResult_eq_true_iff (word s : List Char) :
    searchResult word s = true ↔
      ∃ pre rest, s = pre ++ rest ∧ matchResultAt word rest = true := by
  induction s with
  | nil =>
    simp only [searchResult]
    constructor
    · intro h; exact absurd h (by simp)
    · rintro ⟨pre, rest, heq, hm⟩
      have : rest = [] := (List.append_eq_nil.mp heq.symm).2
      subst this
      exact absurd hm (by rw [show matchResultAt word [] = false from rfl]; simp)
  | cons c cs ih =>
    simp only [searchResult, Bool.or_eq_true]
    constructor
    · rintro (h | h)
      · exact ⟨[], c :: cs, rfl, h⟩
      · obtain ⟨pre, rest, heq, hm⟩ := ih.mp h
        exact ⟨c :: pre, rest, by rw [heq]; rfl, hm⟩
    · rintro ⟨pre, rest, heq, hm⟩
      cases pre with
      | nil =>
        left
        rw [List.nil_append] at heq
        rw [← heq] at hm
        exact hm
      | cons p ps =>
        right
        rw [List.cons_append] at heq
        injection heq with h1 h2
        exact ih.mpr ⟨ps, rest, h2, hm⟩

theorem contains_marker_iff (word content : String)
    (hword : ∃ c cs, word.data = c :: cs ∧ isPyWs c = false) :
    searchResult word.data content.data = true ↔ ContainsResultMarker word content := by
  rw [searchResult_eq_true_iff]
  constructor
  · rintro ⟨pre, rest, heq, hm⟩
    obtain ⟨w1, w2, w3, w4, tail, hrest, hw1, hw2, hw3, hw4⟩ := matchResultAt_sound hm
    exact ⟨pre, w1, w2, w3, w4, tail, by rw [heq, hrest], hw1, hw2, hw3, hw4⟩
  · rintro ⟨pre, w1, w2, w3, w4, post, heq, hw1, hw2, hw3, hw4⟩
    refine ⟨pre, _, heq, matchResultAt_complete word.data w1 w2 w3 w4 post hword hw1 hw2 hw3 hw4⟩

theorem insertSorted_perm (le : α → α → Bool) (a : α) :
    ∀ l : List α, (insertSorted le a l).Perm (a :: l) := by
  intro l
  induction l with
  | nil => exact List.Perm.refl _
  | cons b bs ih =>
    simp only [insertSorted]
    by_cases h : le a b = true
    · rw [if_pos h]
    · rw [if_neg h]
      exact (List.Perm.cons b ih).trans (List.Perm.swap a b bs)

theorem pySorted_perm (le : α → α → Bool) : ∀ l : List α, (pySorted le l).Perm l := by
  intro l
  induction l with
  | nil => exact List.Perm.refl _
  | cons a as ih =>
    exact (insertSorted_perm le a (pySorted le as)).trans (List.Perm.cons a ih)

theorem perm_any {l₁ l₂ : List α} (h : l₁.Perm l₂) (p : α → Bool) : l₁.any p = l₂.any p := by
  induction h with
  | nil => rfl
  | cons x _ ih => simp [List.any_cons, ih]
  | swap x y l => simp [List.any_cons, Bool.or_left_comm]
  | trans _ _ ih1 ih2 => rw [ih1, ih2]

theorem mem_insertSorted {le : α → α → Bool} {a x : α} {l : List α}
    (h : x ∈ insertSorted le a l) : x = a ∨ x ∈ l :=
  List.mem_cons.mp ((insertSorted_perm le a l).subset h)

theorem insertSorted_pairwise (le : α → α → Bool)
    (htrans : ∀ a b c, le a b = true → le b c = true → le a c = true)
    (htotal : ∀ a b, le a b = true ∨ le b a = true) (a : α) :
    ∀ l : List α, l.Pairwise (fun x y => le x y = true) →
      (insertSorted le a l).Pairwise (fun x y => le x y = true) := by
  intro l
  induction l with
  | nil => intro _; simp [insertSorted]
  | cons b bs ih =>
    intro hp
    obtain ⟨hb, hbs⟩ := List.pairwise_cons.mp hp
    simp only [insertSorted]
    by_cases h : le a b = true
    · rw [if_pos h]
      refine List.pairwise_cons.mpr ⟨?_, hp⟩
      intro x hx
      rcases List.mem_cons.mp hx with hx | hx
      · exact hx ▸ h
      · exact htrans a b x h (hb x hx)
    · rw [if_neg h]
      refine List.pairwise_cons.mpr ⟨?_, ih hbs⟩
      intro x hx
      rcases mem_insertSorted hx with hx | hx
      · rcases htotal a b with hab | hba
        · exact absurd hab h
        · rw [hx]; exact hba
      · exact hb x hx

theorem pySorted_pairwise (le : α → α → Bool)
    (htrans : ∀ a b c, le a b = true → le b c = true → le a c = true)
    (htotal : ∀ a b, le a b = true ∨ le b a = true) :
    ∀ l : List α, (pySorted le l).Pairwise (fun x y => le x y = true) := by
  intro l
  induction l with
  | nil => simp [pySorted]
  | cons a as ih => exact insertSorted_pairwise le htrans htotal a _ ih

theorem getLast?_max_of_pairwise {R : α → α → Prop} :
    ∀ {l : List α}, l.Pairwise R → ∀ {m}, l.getLast? = some m → ∀ x ∈ l, x = m ∨ R x m := by
  intro l hp m hm x hx
  obtain ⟨ys, hys⟩ := List.getLast?_eq_some_iff.mp hm
  subst hys
  obtain ⟨-, -, hrel⟩ := List.pairwise_append.mp hp
  rcases List.mem_append.mp hx with hx | hx
  · exact Or.inr (hrel x hx m (by simp))
  · exact Or.inl (by simpa using hx)

theorem pySorted_getLast_le (le : α → α → Bool)
    (htrans : ∀ a b c, le a b = true → le b c = true → le a c = true)
    (htotal : ∀ a b, le a b = true ∨ le b a = true)
    {l : List α} {m : α} (h : (pySorted le l).getLast? = some m) :
    ∀ x ∈ l, x = m ∨ le x m = true := by
  intro x hx
  exact getLast?_max_of_pairwise (pySorted_pairwise le htrans htotal l) h x
    ((pySorted_perm le l).mem_iff.mpr hx)

theorem pySorted_getLast_mem (le : α → α → Bool) {l : List α} {m : α}
    (h : (pySorted le l).getLast? = some m) : m ∈ l := by
  obtain ⟨ys, hys⟩ := List.getLast?_eq_some_iff.mp h
  exact (pySorted_perm le l).mem_iff.mp (by rw [hys]; simp)

theorem listLexLe_iff_not_lex :
    ∀ as bs : List Char, listLexLe as bs = true ↔ ¬ List.Lex (· < ·) bs as := by
  intro as
  induction as with
  | nil =>
    intro bs
    cases bs with
    | nil => exact iff_of_true (by simp [listLexLe]) (fun h => by cases h)
    | cons b bt => exact iff_of_true (by simp [listLexLe]) (fun h => by cases h)
  | cons a at' ih =>
    intro bs
    cases bs with
    | nil =>
      simp only [listLexLe]
      exact iff_of_false (by simp) (fun h => h List.Lex.nil)
    | cons b bt =>
      simp only [listLexLe]
      by_cases hab : a < b
      · rw [if_pos hab]
        refine iff_of_true rfl (fun h => ?_)
        cases h with
        | cons h => exact absurd hab (lt_irrefl a)
        | rel h => exact absurd (h.trans hab) (lt_irrefl b)
      · rw [if_neg hab]
        by_cases hba : b < a
        · rw [if_pos hba]
          exact iff_of_false (by simp) (fun h => h (List.Lex.rel hba))
        · rw [if_neg hba]
          have heq : a = b := le_antisymm (not_lt.mp hba) (not_lt.mp hab)
          subst heq
          rw [ih bt]
          constructor
          · intro h hlex
            cases hlex with
            | cons h2 => exact h h2
            | rel h2 => exact absurd h2 (lt_irrefl a)
          · intro h h2
            exact h (List.Lex.cons h2)

theorem strLeB_iff_le (a b : String) : strLeB a b = true ↔ a ≤ b := by
  rw [show strLeB a b = listLexLe a.data b.data from rfl, listLexLe_iff_not_lex]
  exact (String.le_iff_toList_le.trans not_lt.symm).symm

theorem strLeB_trans : ∀ a b c, strLeB a b = true → strLeB b c = true → strLeB a c = true := by
  intro a b c h1 h2
  rw [strLeB_iff_le] at *
  exact le_trans h1 h2

theorem strLeB_total : ∀ a b, strLeB a b = true ∨ strLeB b a = true := by
  intro a b
  rw [strLeB_iff_le, strLeB_iff_le]
  exact le_total a b

theorem nodeLeB_trans : ∀ a b c : FileNode,
    nodeLeB a b = true → nodeLeB b c = true → nodeLeB a c = true :=
  fun _ _ _ h1 h2 => strLeB_trans _ _ _ h1 h2

theorem nodeLeB_total : ∀ a b : FileNode, nodeLeB a b = true ∨ nodeLeB b a = true :=
  fun a b => strLeB_total a.name b.name

theorem extract_eq_resultFromContent {entries : List TrajEntry} {last_turn : String}
    {rf : FileNode} {data : JValue} {content : String}
    (h1 : (sortedStrings (turnFolderNames entries)).getLast? = some last_turn)
    (h2 : (pySorted nodeLeB (responseFilesOf (listdirOf entries last_turn))).getLast? = some rf)
    (h3 : rf.textJson = some data)
    (h4 : responseContent data = some content) :
    extract_test_result_from_trajectory (some entries) = resultFromContent content := by
  unfold extract_test_result_from_trajectory
  simp only [h1, h2, h3, h4]

theorem trueWordHead : ∃ c cs, "True".data = c :: cs ∧ isPyWs c = false :=
  ⟨'T', "rue".data, by decide, by decide⟩

theorem falseWordHead : ∃ c cs, "False".data = c :: cs ∧ isPyWs c = false :=
  ⟨'F', "alse".data, by decide, by decide⟩

/-- C1: when the lexically last turn folder's lexically last API response
file parses as JSON with a `response.choices[-1].message.content` text
field, `extract_test_result_from_trajectory` returns `true` if the text
contains the affirmative marker (an opening brace, `"result"`, a colon and
`True` with optional whitespace), `false` if it contains only the negative
marker, and `false` if it contains neither. -/
theorem extract_result_marker_cases (entries : List TrajEntry) (last_turn : String)
    (rf : FileNode) (data : JValue) (content : String)
    (h1 : (sortedStrings (turnFolderNames entries)).getLast? = some last_turn)
    (h2 : (pySorted nodeLeB (responseFilesOf (listdirOf entries last_turn))).getLast? = some rf)
    (h3 : rf.textJson = some data)
    (h4 : responseContent data = some content) :
    (ContainsResultMarker "True" content →
      extract_test_result_from_trajectory (some entries) = true) ∧
    (¬ ContainsResultMarker "True" content → ContainsResultMarker "False" content →
      extract_test_result_from_trajectory (some entries) = false) ∧
    (¬ ContainsResultMarker "True" content → ¬ ContainsResultMarker "False" content →
      extract_test_result_from_trajectory (some entries) = false) := by
  have hex := extract_eq_resultFromContent h1 h2 h3 h4
  refine ⟨?_, ?_, ?_⟩
  · intro hm
    have ht : containsTruePattern content = true :=
      (contains_marker_iff "True" content trueWordHead).mpr hm
    rw [hex]
    simp [resultFromContent, ht]
  · intro hnot _
    have ht : containsTruePattern content = false := by
      rw [← Bool.not_eq_true]
      exact fun h => hnot ((contains_marker_iff "True" content trueWordHead).mp h)
    rw [hex]
    simp [resultFromContent, ht]
  · intro hnot _
    have ht : containsTruePattern content = false := by
      rw [← Bool.not_eq_true]
      exact fun h => hnot ((contains_marker_iff "True" content trueWordHead).mp h)
    rw [hex]
    simp [resultFromContent, ht]

theorem extract_result_marker_cases_witness :
    extract_test_result_from_trajectory (some sampleC1Entries) = true :=
  (extract_result_marker_cases sampleC1Entries "turn_01" sampleC1File sampleC1Json
      sampleContentTrue rfl rfl rfl rfl).1
    ⟨"bla ".data, [], [], [' '], [], [],
      by decide, by decide, by decide, by decide, by decide⟩

/-- C3: `extract_test_result_from_trajectory` fails closed — it returns
`false` when the trajectory path is empty or missing (`none`), when no
entry is a `turn_`-prefixed directory, when the last turn has no file
matching the response-file pattern, and when reading or parsing the
selected file raises. -/
theorem extract_fails_closed :
    extract_test_result_from_trajectory none = false ∧
    (∀ entries, turnFolderNames entries = [] →
      extract_test_result_from_trajectory (some entries) = false) ∧
    (∀ entries last_turn,
      (sortedStrings (turnFolderNames entries)).getLast? = some last_turn →
      responseFilesOf (listdirOf entries last_turn) = [] →
      extract_test_result_from_trajectory (some entries) = false) ∧
    (∀ entries last_turn rf,
      (sortedStrings (turnFolderNames entries)).getLast? = some last_turn →
      (pySorted nodeLeB (responseFilesOf (listdirOf entries last_turn))).getLast? = some rf →
      rf.textJson = none →
      extract_test_result_from_trajectory (some entries) = false) := by
  refine ⟨rfl, ?_, ?_, ?_⟩
  · intro entries h
    unfold extract_test_result_from_trajectory
    simp only [h]
    rfl
  · intro entries last_turn h1 h2
    unfold extract_test_result_from_trajectory
    simp only [h1, h2]
    rfl
  · intro entries last_turn rf h1 h2 h3
    unfold extract_test_result_from_trajectory
    simp only [h1, h2, h3]

theorem extract_fails_closed_witness :
    extract_test_result_from_trajectory none = false ∧
    extract_test_result_from_trajectory (some [⟨"notes.txt", false, []⟩]) = false ∧
    extract_test_result_from_trajectory
      (some [⟨"turn_01", true, [⟨"readme.md", none, false, ""⟩]⟩]) = false ∧
    extract_test_result_from_trajectory
      (some [⟨"turn_01", true, [⟨"api_call_001_response.json", none, true, "err"⟩]⟩]) = false :=
  ⟨extract_fails_closed.1,
   extract_fails_closed.2.1 _ rfl,
   extract_fails_closed.2.2.1 _ "turn_01" rfl rfl,
   extract_fails_closed.2.2.2 _ "turn_01"
     ⟨"api_call_001_response.json", none, true, "err"⟩ rfl rfl rfl⟩

/-- C4: the extraction inspects exactly one file — the lexically greatest
matching response file of the lexically greatest `turn_` subdirectory —
and its result is the function of that file which reads the `content`
field of the last element of `response.choices` (see `responseContent`). -/
theorem extract_selection (entries : List TrajEntry) (last_turn : String) (rf : FileNode)
    (h1 : (sortedStrings (turnFolderNames entries)).getLast? = some last_turn)
    (h2 : (pySorted nodeLeB (responseFilesOf (listdirOf entries last_turn))).getLast? = some rf) :
    last_turn ∈ turnFolderNames entries ∧
    (∀ n ∈ turnFolderNames entries, n ≤ last_turn) ∧
    rf ∈ responseFilesOf (listdirOf entries last_turn) ∧
    (∀ f ∈ responseFilesOf (listdirOf entries last_turn), f.name ≤ rf.name) ∧
    extract_test_result_from_trajectory (some entries) =
      (match rf.textJson with
       | some data =>
         (match responseContent data with
          | some content => resultFromContent content
          | none => false)
       | none => false) := by
  refine ⟨pySorted_getLast_mem strLeB h1, ?_, pySorted_getLast_mem nodeLeB h2, ?_, ?_⟩
  · intro n hn
    rcases pySorted_getLast_le strLeB strLeB_trans strLeB_total h1 n hn with h | h
    · exact le_of_eq (by rw [h])
    · exact (strLeB_iff_le n last_turn).mp h
  · intro f hf
    rcases pySorted_getLast_le nodeLeB nodeLeB_trans nodeLeB_total h2 f hf with h | h
    · exact le_of_eq (by rw [h])
    · exact (strLeB_iff_le f.name rf.name).mp h
  · unfold extract_test_result_from_trajectory
    simp only [h1, h2]
    cases rf.textJson with
    | none => rfl
    | some data => rfl

theorem extract_selection_witness :
    "turn_02" ∈ turnFolderNames sampleC4Entries ∧
    extract_test_result_from_trajectory (some sampleC4Entries) = false :=
  ⟨(extract_selection sampleC4Entries "turn_02" sampleC4File rfl rfl).1,
   (extract_selection sampleC4Entries "turn_02" sampleC4File rfl rfl).2.2.2.2⟩

/-- C10: when the selected content contains both the affirmative and the
negative marker, the affirmative match is checked first and wins, so
extraction returns `true`. -/
theorem extract_both_markers_true (entries : List TrajEntry) (last_turn : String)
    (rf : FileNode) (data : JValue) (content : String)
    (h1 : (sortedStrings (turnFolderNames entries)).getLast? = some last_turn)
    (h2 : (pySorted nodeLeB (responseFilesOf (listdirOf entries last_turn))).getLast? = some rf)
    (h3 : rf.textJson = some data)
    (h4 : responseContent data = some content)
    (ht : ContainsResultMarker "True" content)
    (hf : ContainsResultMarker "False" content) :
    extract_test_result_from_trajectory (some entries) = true := by
  have hex := extract_eq_resultFromContent h1 h2 h3 h4
  have htb : containsTruePattern content = true :=
    (contains_marker_iff "True" content trueWordHead).mpr ht
  rw [hex]
  simp [resultFromContent, htb]

theorem extract_both_markers_true_witness :
    extract_test_result_from_trajectory (some sampleC10Entries) = true :=
  extract_both_markers_true sampleC10Entries "turn_01" sampleC10File sampleC10Json
    sampleContentBoth rfl rfl rfl rfl
    ⟨[], [], [], [' '], [], " \x7b\"result\": False\x7d".data,
      by decide, by decide, by decide, by decide, by decide⟩
    ⟨"\x7b\"result\": True\x7d ".data, [], [], [' '], [], [],
      by decide, by decide, by decide, by decide, by decide⟩

theorem endsWith_json_not_png {n : String} (h : endsWithB n ".json" = true) :
    endsWithB n ".png" = false := by
  unfold endsWithB at h ⊢
  rcases hrev : n.data.reverse with _ | ⟨c, cs⟩
  · rw [hrev] at h
    exact absurd h (by decide)
  · rw [hrev] at h
    by_cases hc : c = 'n'
    · subst hc
      show (matchChars ['g', 'n', 'p', '.'] ('n' :: cs)).isSome = false
      simp [matchChars]
    · exfalso
      have : matchChars ".json".data.reverse (c :: cs) = none := by
        show (if c = 'n' then matchChars ['o', 's', 'j', '.'] cs else none) = none
        rw [if_neg hc]
      rw [this] at h
      exact absurd h (by simp)

theorem rpStart_noRaise (n t : String) (s : St) :
    rpStart noRaise n t s = (Except.ok s.nextId,
      { s with nStart := s.nStart + 1, nextId := s.nextId + 1,
               events := s.events ++ [Event.startItem s.nextId n t] }) := by
  simp [rpStart, noRaise]

theorem rpLog_noRaise (lv m : String) (i : Nat) (a : Option Attachment) (s : St) :
    rpLog noRaise lv m i a s = (Except.ok (),
      { s with nLog := s.nLog + 1, events := s.events ++ [Event.logEntry lv m i a] }) := by
  simp [rpLog, noRaise]

theorem rpFinish_noRaise (i : Nat) (stat : String) (s : St) :
    rpFinish noRaise i stat s = (Except.ok (),
      { s with nFinish := s.nFinish + 1, events := s.events ++ [Event.finishItem i stat] }) := by
  simp [rpFinish, noRaise]

theorem uploadTurnFiles_noRaise_fst (stepId : Nat) :
    ∀ (l : List FileNode) (u h : Bool) (s : St),
      (uploadTurnFiles noRaise stepId l u h s).1 =
        Except.ok (u || l.any fileSuccess, h || l.any fileError) := by
  intro l
  induction l with
  | nil => intro u h s; simp [uploadTurnFiles]
  | cons f rest ih =>
    intro u h s
    by_cases hjson : endsWithB f.name ".json" = true
    · have hpng : endsWithB f.name ".png" = false := endsWith_json_not_png hjson
      cases hc : f.textJson with
      | some data =>
        simp only [uploadTurnFiles, hjson, hc, if_true, rpLog_noRaise]
        rw [ih]
        simp [List.any_cons, fileSuccess, fileError, hjson, hpng, hc]
      | none =>
        simp only [uploadTurnFiles, hjson, hc, if_true, rpLog_noRaise]
        rw [ih]
        simp [List.any_cons, fileSuccess, fileError, hjson, hpng, hc]
    · have hjson' : endsWithB f.name ".json" = false := by
        cases hval : endsWithB f.name ".json"
        · rfl
        · exact absurd hval hjson
      by_cases hpng : endsWithB f.name ".png" = true
      · cases hb : f.binOk
        · simp only [uploadTurnFiles, hjson', hpng, hb, Bool.false_eq_true, if_false, if_true,
            rpLog_noRaise]
          rw [ih]
          simp [List.any_cons, fileSuccess, fileError, hjson', hpng, hb]
        · simp only [uploadTurnFiles, hjson', hpng, hb, Bool.false_eq_true, if_false, if_true,
            rpLog_noRaise]
          rw [ih]
          simp [List.any_cons, fileSuccess, fileError, hjson', hpng, hb]
      · have hpng' : endsWithB f.name ".png" = false := by
          cases hval : endsWithB f.name ".png"
          · rfl
          · exact absurd hval hpng
        simp only [uploadTurnFiles, hjson', hpng', Bool.false_eq_true, if_false]
        rw [ih]
        simp [List.any_cons, fileSuccess, fileError, hjson', hpng']

/-- C5: with a well-behaved backend, `upload_turn_folder` always succeeds
and finalizes its STEP item with status FAILED exactly when `force_fail`
is set or some `.json` file failed to parse or some `.png` file failed to
read; in every other case (including a turn with no recognized files) the
status is PASSED. -/
theorem upload_turn_folder_status (turnFiles : List FileNode) (turn_name : String)
    (force_fail : Bool) (s : St) :
    (upload_turn_folder noRaise turnFiles turn_name force_fail s).1 = Except.ok () ∧
    (upload_turn_folder noRaise turnFiles turn_name force_fail s).2.events.getLast? =
      some (Event.finishItem s.nextId
        (if force_fail || turnFiles.any fileError then "FAILED" else "PASSED")) := by
  have hperm : (pySorted nodeLeB turnFiles).any fileError = turnFiles.any fileError :=
    perm_any (pySorted_perm nodeLeB turnFiles) fileError
  unfold upload_turn_folder
  rw [rpStart_noRaise]
  dsimp only
  rcases hL : uploadTurnFiles noRaise s.nextId (pySorted nodeLeB turnFiles) false false
      { s with nStart := s.nStart + 1, nextId := s.nextId + 1,
               events := s.events ++ [Event.startItem s.nextId turn_name "STEP"] }
    with ⟨res, s3⟩
  have hfst := uploadTurnFiles_noRaise_fst s.nextId (pySorted nodeLeB turnFiles) false false
      { s with nStart := s.nStart + 1, nextId := s.nextId + 1,
               events := s.events ++ [Event.startItem s.nextId turn_name "STEP"] }
  rw [hL] at hfst
  cases res with
  | error u => exact absurd hfst (by simp)
  | ok pr =>
    have hpr : pr = ((pySorted nodeLeB turnFiles).any fileSuccess,
        (pySorted nodeLeB turnFiles).any fileError) := by
      simpa using hfst
    subst hpr
    dsimp only
    cases hu : (pySorted nodeLeB turnFiles).any fileSuccess with
    | true =>
      rw [if_pos rfl]
      dsimp only
      rw [rpFinish_noRaise]
      constructor
      · rfl
      · simp only [List.getLast?_concat]
        rw [hperm]
        cases force_fail <;> simp
    | false =>
      rw [if_neg (by simp)]
      rw [rpLog_noRaise]
      dsimp only
      rw [rpFinish_noRaise]
      constructor
      · rfl
      · simp only [List.getLast?_concat]
        rw [hperm]
        cases force_fail <;> simp

theorem uploadJanLoop_noRaise (tid : Nat) (appType : String) :
    ∀ (l : List LogFile) (i : Nat) (s : St),
      uploadJanLoop noRaise tid appType l i s =
        (Except.ok (),
          { s with nLog := s.nLog + l.length,
                   events := s.events ++ janLoopEvents appType tid l i }) := by
  intro l
  induction l with
  | nil => intro i s; simp [uploadJanLoop, janLoopEvents]
  | cons f rest ih =>
    intro i s
    by_cases hsize : f.size > 52428800
    · simp only [uploadJanLoop, if_pos hsize, rpLog_noRaise]
      rw [ih]
      simp [janLoopEvents, janFileEvents, hsize, Nat.add_assoc, Nat.add_comm,
        Nat.add_left_comm, List.append_assoc]
    · simp only [uploadJanLoop, if_neg hsize, rpLog_noRaise]
      rw [ih]
      simp [janLoopEvents, janFileEvents, hsize, Nat.add_assoc, Nat.add_comm,
        Nat.add_left_comm, List.append_assoc]

/-- C6: with a well-behaved backend and at least one discovered log file,
`upload_jan_logs` considers exactly the first `max_log_files` files in
modification-time-descending order; every considered file over the 50 MiB
ceiling contributes exactly one WARNING entry and no attachment, every
other considered file one INFO entry carrying its content as a text
attachment, and the trace ends with the summary count entry. -/
theorem upload_jan_logs_trace (tid : Nat) (logs : List LogFile) (is_nightly : Bool)
    (maxFiles : Nat) (s : St) (hne : logs ≠ []) :
    (upload_jan_logs noRaise tid logs is_nightly maxFiles s).1 = Except.ok () ∧
    (upload_jan_logs noRaise tid logs is_nightly maxFiles s).2.events =
      s.events ++
        janLoopEvents (janAppType is_nightly) tid
          ((pySorted mtimeDescLe logs).take maxFiles) 1 ++
        [janSummaryEvent (janAppType is_nightly) tid
          ((pySorted mtimeDescLe logs).take maxFiles).length logs.length] := by
  unfold upload_jan_logs
  rw [if_neg (by simp [List.isEmpty_iff, hne])]
  dsimp only
  rw [uploadJanLoop_noRaise]
  dsimp only
  rw [rpLog_noRaise]
  dsimp only
  exact ⟨rfl, by simp [janSummaryEvent, List.append_assoc]⟩

theorem upload_jan_logs_trace_witness :
    (upload_jan_logs noRaise 7 sampleLogs false 5 st0).1 = Except.ok () ∧
    (upload_jan_logs noRaise 7 sampleLogs false 5 st0).2.events =
      st0.events ++
        janLoopEvents (janAppType false) 7 ((pySorted mtimeDescLe sampleLogs).take 5) 1 ++
        [janSummaryEvent (janAppType false) 7
          ((pySorted mtimeDescLe sampleLogs).take 5).length sampleLogs.length] :=
  upload_jan_logs_trace 7 sampleLogs false 5 st0 (by decide)

theorem uploadTurnFiles_noRaise_full (stepId : Nat) :
    ∀ (l : List FileNode) (u h : Bool) (s : St),
      uploadTurnFiles noRaise stepId l u h s =
        (Except.ok (u || l.any fileSuccess, h || l.any fileError),
          { s with nLog := s.nLog + (turnFilesEvents stepId l).length,
                   events := s.events ++ turnFilesEvents stepId l }) := by
  intro l
  induction l with
  | nil => intro u h s; simp [uploadTurnFiles, turnFilesEvents]
  | cons f rest ih =>
    intro u h s
    by_cases hjson : endsWithB f.name ".json" = true
    · have hpng : endsWithB f.name ".png" = false := endsWith_json_not_png hjson
      cases hc : f.textJson with
      | some data =>
        simp only [uploadTurnFiles, hjson, hc, if_true, rpLog_noRaise]
        rw [ih]
        simp [turnFilesEvents, turnFileEvents, List.any_cons, fileSuccess, fileError,
          hjson, hpng, hc, Nat.add_assoc, Nat.add_comm, Nat.add_left_comm, List.append_assoc]
      | none =>
        simp only [uploadTurnFiles, hjson, hc, if_true, rpLog_noRaise]
        rw [ih]
        simp [turnFilesEvents, turnFileEvents, List.any_cons, fileSuccess, fileError,
          hjson, hpng, hc, Nat.add_assoc, Nat.add_comm, Nat.add_left_comm, List.append_assoc]
    · have hjson' : endsWithB f.name ".json" = false := by
        cases hval : endsWithB f.name ".json"
        · rfl
        · exact absurd hval hjson
      by_cases hpng : endsWithB f.name ".png" = true
      · cases hb : f.binOk
        · simp only [uploadTurnFiles, hjson', hpng, hb, Bool.false_eq_true, if_false, if_true,
            rpLog_noRaise]
          rw [ih]
          simp [turnFilesEvents, turnFileEvents, List.any_cons, fileSuccess, fileError,
            hjson', hpng, hb, Nat.add_assoc, Nat.add_comm, Nat.add_left_comm, List.append_assoc]
        · simp only [uploadTurnFiles, hjson', hpng, hb, Bool.false_eq_true, if_false, if_true,
            rpLog_noRaise]
          rw [ih]
          simp [turnFilesEvents, turnFileEvents, List.any_cons, fileSuccess, fileError,
            hjson', hpng, hb, Nat.add_assoc, Nat.add_comm, Nat.add_left_comm, List.append_assoc]
      · have hpng' : endsWithB f.name ".png" = false := by
          cases hval : endsWithB f.name ".png"
          · rfl
          · exact absurd hval hpng
        simp only [uploadTurnFiles, hjson', hpng', Bool.false_eq_true, if_false]
        rw [ih]
        simp [turnFilesEvents, turnFileEvents, List.any_cons, fileSuccess, fileError,
          hjson', hpng', Nat.add_assoc, Nat.add_comm, Nat.add_left_comm, List.append_assoc]

theorem events_suffix3 (base a b c : List Event) :
    ∃ δ, ((base ++ a) ++ b) ++ c = base ++ δ :=
  ⟨a ++ b ++ c, by simp [List.append_assoc]⟩

theorem events_suffix4 (base a b c d : List Event) :
    ∃ δ, (((base ++ a) ++ b) ++ c) ++ d = base ++ δ :=
  ⟨a ++ b ++ c ++ d, by simp [List.append_assoc]⟩

theorem upload_turn_folder_noRaise_pair (turnFiles : List FileNode) (tn : String)
    (ff : Bool) (s : St) :
    ∃ s', upload_turn_folder noRaise turnFiles tn ff s = (Except.ok (), s') ∧
      ∃ δ, s'.events = s.events ++ δ := by
  unfold upload_turn_folder
  rw [rpStart_noRaise]
  dsimp only
  rw [uploadTurnFiles_noRaise_full]
  dsimp only
  cases hu : (false || (pySorted nodeLeB turnFiles).any fileSuccess) with
  | true =>
    rw [if_pos rfl]
    dsimp only
    rw [rpFinish_noRaise]
    exact ⟨_, rfl, events_suffix3 _ _ _ _⟩
  | false =>
    rw [if_neg (by simp)]
    rw [rpLog_noRaise]
    dsimp only
    rw [rpFinish_noRaise]
    exact ⟨_, rfl, events_suffix4 _ _ _ _ _⟩

theorem uploadTurnsLoop_noRaise (entries : List TrajEntry) (ff : Bool) :
    ∀ (ns : List String) (s : St),
      ∃ s', uploadTurnsLoop noRaise entries ff ns s = (Except.ok (), s') ∧
        ∃ δ, s'.events = s.events ++ δ := by
  intro ns
  induction ns with
  | nil => intro s; exact ⟨s, rfl, [], by simp⟩
  | cons n rest ih =>
    intro s
    obtain ⟨s1, h1, δ1, hδ1⟩ := upload_turn_folder_noRaise_pair (listdirOf entries n) n ff s
    obtain ⟨s2, h2, δ2, hδ2⟩ := ih s1
    refine ⟨s2, ?_, δ1 ++ δ2, ?_⟩
    · simp only [uploadTurnsLoop, h1, h2]
    · rw [hδ2, hδ1, List.append_assoc]

theorem videoBlock_noRaise (tid : Nat) (ftp : String) (video : Option VideoF) (s : St) :
    ∃ s', videoBlock noRaise tid ftp video s = (Except.ok (), s') ∧
      ∃ δ, s'.events = s.events ++ δ := by
  cases video with
  | none =>
    unfold videoBlock
    rw [rpLog_noRaise]
    exact ⟨_, rfl, _, rfl⟩
  | some v =>
    unfold videoBlock
    dsimp only
    by_cases hf : v.found = true
    · rw [if_pos hf]
      by_cases hr : v.readOk = true
      · rw [if_pos hr]
        rw [rpLog_noRaise]
        dsimp only
        exact ⟨_, rfl, _, rfl⟩
      · rw [if_neg hr]
        rw [rpLog_noRaise]
        exact ⟨_, rfl, _, rfl⟩
    · rw [if_neg hf]
      rw [rpLog_noRaise]
      exact ⟨_, rfl, _, rfl⟩

theorem upload_jan_logs_noRaise (tid : Nat) (logs : List LogFile) (inb : Bool)
    (mf : Nat) (s : St) :
    ∃ s', upload_jan_logs noRaise tid logs inb mf s = (Except.ok (), s') ∧
      ∃ δ, s'.events = s.events ++ δ := by
  by_cases hne : logs = []
  · subst hne
    unfold upload_jan_logs
    simp only [List.isEmpty_nil, if_true]
    rw [rpLog_noRaise]
    dsimp only
    exact ⟨_, rfl, _, rfl⟩
  · have h12 := upload_jan_logs_trace tid logs inb mf s hne
    refine ⟨(upload_jan_logs noRaise tid logs inb mf s).2, ?_, ?_⟩
    · rw [show ((Except.ok (), (upload_jan_logs noRaise tid logs inb mf s).2) :
          Except Unit Unit × St) =
          ((upload_jan_logs noRaise tid logs inb mf s).1,
           (upload_jan_logs noRaise tid logs inb mf s).2) by rw [h12.1]]
    · exact ⟨janLoopEvents (janAppType inb) tid (List.take mf (pySorted mtimeDescLe logs)) 1 ++
        [janSummaryEvent (janAppType inb) tid
          (List.take mf (pySorted mtimeDescLe logs)).length logs.length],
        by rw [h12.2]; simp [List.append_assoc]⟩

theorem mainBlock_noRaise (tid : Nat) (entries : List TrajEntry) (fs sm : String)
    (video : Option VideoF) (ftp : String) (jl : List LogFile) (inb : Bool) (s : St) :
    (mainBlock noRaise tid entries fs sm video ftp jl inb s).1 = Except.ok () ∧
    ∃ δ, (mainBlock noRaise tid entries fs sm video ftp jl inb s).2.events =
      s.events ++ Event.logEntry (if fs = "PASSED" then "INFO" else "ERROR")
        ((if fs = "PASSED" then "[SUCCESS]" else "[FAILED]") ++ " TEST " ++ fs ++ " " ++
         (if fs = "PASSED" then "[SUCCESS]" else "[FAILED]") ++ "\nReason: " ++ sm ++
         "\nTotal turns: " ++ String.mk (natRepr (turnFolderNames entries).length)) tid none
        :: (δ ++ [Event.finishItem tid fs]) := by
  unfold mainBlock
  dsimp only
  rw [rpLog_noRaise]
  dsimp only
  obtain ⟨s2, h2, δ2, hδ2⟩ := videoBlock_noRaise tid ftp video _
  rw [h2]
  dsimp only
  obtain ⟨s3, h3, δ3, hδ3⟩ := upload_jan_logs_noRaise tid jl inb 5 s2
  rw [h3]
  dsimp only
  obtain ⟨s4, h4, δ4, hδ4⟩ := uploadTurnsLoop_noRaise entries (fs == "FAILED")
    (sortedStrings (turnFolderNames entries)) s3
  rw [h4]
  dsimp only
  rw [rpFinish_noRaise]
  refine ⟨rfl, δ2 ++ δ3 ++ δ4, ?_⟩
  dsimp only
  rw [hδ4, hδ3, hδ2]
  dsimp only
  simp [List.append_assoc]

/-- C7: for an existing trajectory directory with `force_stopped = True`
and a well-behaved backend, the test item's final status is FAILED with a
status reason referencing the turn limit — for every trajectory content,
i.e. irrespective of any response file (the extraction is not consulted). -/
theorem force_stopped_overrides (test_path : String) (entries : List TrajEntry)
    (video : Option VideoF) (janLogs : List LogFile) (is_nightly : Bool) (s : St) :
    (upload_test_results_to_rp noRaise test_path (some entries) true video janLogs
      is_nightly s).1 = Except.ok () ∧
    (upload_test_results_to_rp noRaise test_path (some entries) true video janLogs
      is_nightly s).2.events.getLast? = some (Event.finishItem s.nextId "FAILED") ∧
    Event.logEntry "ERROR"
      ("[FAILED] TEST FAILED [FAILED]\nReason: exceeded maximum turn limit (30 turns)\nTotal turns: "
        ++ String.mk (natRepr (turnFolderNames entries).length)) s.nextId none
      ∈ (upload_test_results_to_rp noRaise test_path (some entries) true video janLogs
          is_nightly s).2.events := by
  simp only [upload_test_results_to_rp, if_true]
  rw [rpStart_noRaise]
  dsimp only
  rcases hMB : mainBlock noRaise s.nextId entries "FAILED"
      "exceeded maximum turn limit (30 turns)" video (fmtTestPath test_path) janLogs is_nightly
      { s with nStart := s.nStart + 1, nextId := s.nextId + 1,
               events := s.events ++ [Event.startItem s.nextId (fmtTestPath test_path) "TEST"] }
    with ⟨mres, ms⟩
  have hm := mainBlock_noRaise s.nextId entries "FAILED"
      "exceeded maximum turn limit (30 turns)" video (fmtTestPath test_path) janLogs is_nightly
      { s with nStart := s.nStart + 1, nextId := s.nextId + 1,
               events := s.events ++ [Event.startItem s.nextId (fmtTestPath test_path) "TEST"] }
  rw [hMB] at hm
  obtain ⟨hm1, δ, hm2⟩ := hm
  cases mres with
  | error u => exact absurd hm1 (by simp)
  | ok _ =>
    dsimp only
    dsimp only at hm2
    refine ⟨rfl, ?_, ?_⟩
    · rw [hm2]
      have hsplit : (s.events ++ [Event.startItem s.nextId (fmtTestPath test_path) "TEST"]) ++
          Event.logEntry (if "FAILED" = "PASSED" then "INFO" else "ERROR")
            ((if "FAILED" = "PASSED" then "[SUCCESS]" else "[FAILED]") ++ " TEST " ++ "FAILED"
              ++ " " ++ (if "FAILED" = "PASSED" then "[SUCCESS]" else "[FAILED]") ++
              "\nReason: " ++ "exceeded maximum turn limit (30 turns)" ++ "\nTotal turns: " ++
              String.mk (natRepr (turnFolderNames entries).length)) s.nextId none
            :: (δ ++ [Event.finishItem s.nextId "FAILED"]) =
          ((s.events ++ [Event.startItem s.nextId (fmtTestPath test_path) "TEST"]) ++
            Event.logEntry (if "FAILED" = "PASSED" then "INFO" else "ERROR")
              ((if "FAILED" = "PASSED" then "[SUCCESS]" else "[FAILED]") ++ " TEST " ++ "FAILED"
                ++ " " ++ (if "FAILED" = "PASSED" then "[SUCCESS]" else "[FAILED]") ++
                "\nReason: " ++ "exceeded maximum turn limit (30 turns)" ++ "\nTotal turns: " ++
                String.mk (natRepr (turnFolderNames entries).length)) s.nextId none :: δ) ++
            [Event.finishItem s.nextId "FAILED"] := by
        simp [List.append_assoc]
      rw [hsplit, List.getLast?_concat]
    · rw [hm2]
      exact List.mem_append.mpr (Or.inr (List.mem_cons_self _ _))

/-- C8: when the trajectory directory is missing or `None`, the test item
receives the fixed FAILED error log entry and is finalized with status
FAILED, and no STEP item is ever created (`upload_turn_folder` is never
invoked, so the new trace events contain no STEP `startItem`). -/
theorem missing_trajectory_behavior (test_path : String) (force_stopped : Bool)
    (video : Option VideoF) (janLogs : List LogFile) (is_nightly : Bool) (s : St) :
    (upload_test_results_to_rp noRaise test_path none force_stopped video janLogs
      is_nightly s).1 = Except.ok () ∧
    ∃ δ, (upload_test_results_to_rp noRaise test_path none force_stopped video janLogs
        is_nightly s).2.events = s.events ++ δ ∧
      Event.logEntry "ERROR" "[FAILED] TEST FAILED [FAILED]\nNo trajectory directory found"
        s.nextId none ∈ δ ∧
      δ.getLast? = some (Event.finishItem s.nextId "FAILED") ∧
      ∀ e ∈ δ, ∀ iid nm, e ≠ Event.startItem iid nm "STEP" := by
  simp only [upload_test_results_to_rp]
  rw [rpStart_noRaise]
  dsimp only
  rw [rpLog_noRaise]
  dsimp only
  cases video with
  | none =>
    rw [rpFinish_noRaise]
    refine ⟨rfl, [Event.startItem s.nextId (fmtTestPath test_path) "TEST",
      Event.logEntry "ERROR" "[FAILED] TEST FAILED [FAILED]\nNo trajectory directory found"
        s.nextId none,
      Event.finishItem s.nextId "FAILED"], ?_, by simp, rfl, ?_⟩
    · dsimp only
      simp [List.append_assoc]
    · intro e he iid nm
      simp only [List.mem_cons, List.not_mem_nil, or_false] at he
      rcases he with rfl | rfl | rfl
      · intro h
        injection h with h1 h2 h3
        exact absurd h3 (by decide)
      · intro h
        exact Event.noConfusion h
      · intro h
        exact Event.noConfusion h
  | some v =>
    dsimp only
    by_cases hf : v.found = true
    · rw [if_pos hf]
      by_cases hr : v.readOk = true
      · rw [if_pos hr]
        rw [rpLog_noRaise]
        dsimp only
        rw [rpFinish_noRaise]
        refine ⟨rfl, [Event.startItem s.nextId (fmtTestPath test_path) "TEST",
          Event.logEntry "ERROR" "[FAILED] TEST FAILED [FAILED]\nNo trajectory directory found"
            s.nextId none,
          Event.logEntry "INFO" "Screen recording of test execution" s.nextId
            (some ⟨"test_recording_" ++ fmtTestPath test_path ++ ".mp4", "video/x-msvideo", none⟩),
          Event.finishItem s.nextId "FAILED"], ?_, by simp, rfl, ?_⟩
        · dsimp only
          simp [List.append_assoc]
        · intro e he iid nm
          simp only [List.mem_cons, List.not_mem_nil, or_false] at he
          rcases he with rfl | rfl | rfl | rfl
          · intro h
            injection h with h1 h2 h3
            exact absurd h3 (by decide)
          · intro h
            exact Event.noConfusion h
          · intro h
            exact Event.noConfusion h
          · intro h
            exact Event.noConfusion h
      · rw [if_neg hr]
        rw [rpFinish_noRaise]
        refine ⟨rfl, [Event.startItem s.nextId (fmtTestPath test_path) "TEST",
          Event.logEntry "ERROR" "[FAILED] TEST FAILED [FAILED]\nNo trajectory directory found"
            s.nextId none,
          Event.finishItem s.nextId "FAILED"], ?_, by simp, rfl, ?_⟩
        · dsimp only
          simp [List.append_assoc]
        · intro e he iid nm
          simp only [List.mem_cons, List.not_mem_nil, or_false] at he
          rcases he with rfl | rfl | rfl
          · intro h
            injection h with h1 h2 h3
            exact absurd h3 (by decide)
          · intro h
            exact Event.noConfusion h
          · intro h
            exact Event.noConfusion h
    · rw [if_neg hf]
      rw [rpFinish_noRaise]
      refine ⟨rfl, [Event.startItem s.nextId (fmtTestPath test_path) "TEST",
        Event.logEntry "ERROR" "[FAILED] TEST FAILED [FAILED]\nNo trajectory directory found"
          s.nextId none,
        Event.finishItem s.nextId "FAILED"], ?_, by simp, rfl, ?_⟩
      · dsimp only
        simp [List.append_assoc]
      · intro e he iid nm
        simp only [List.mem_cons, List.not_mem_nil, or_false] at he
        rcases he with rfl | rfl | rfl
        · intro h
          injection h with h1 h2 h3
          exact absurd h3 (by decide)
        · intro h
          exact Event.noConfusion h
        · intro h
          exact Event.noConfusion h

theorem rpStart_ok {o : Oracle} {s : St} (h : o.startRaises s.nStart = false)
    (n t : String) :
    rpStart o n t s = (Except.ok s.nextId,
      { s with nStart := s.nStart + 1, nextId := s.nextId + 1,
               events := s.events ++ [Event.startItem s.nextId n t] }) := by
  simp [rpStart, h]

theorem rpFinish_ok {o : Oracle} {s : St} (h : o.finishRaises s.nFinish = false)
    (i : Nat) (stat : String) :
    rpFinish o i stat s = (Except.ok (),
      { s with nFinish := s.nFinish + 1, events := s.events ++ [Event.finishItem i stat] }) := by
  simp [rpFinish, h]

theorem rpLog_ok {o : Oracle} {s : St} (h : o.logRaises s.nLog = false)
    (lv m : String) (i : Nat) (a : Option Attachment) :
    rpLog o lv m i a s = (Except.ok (),
      { s with nLog := s.nLog + 1, events := s.events ++ [Event.logEntry lv m i a] }) := by
  simp [rpLog, h]

/-- C2 counterexample: the claim "never raises an exception to its caller"
fails — with a backend whose `start_test_item` raises, the entry point
propagates the exception, because the initial `client.start_test_item`
call (line 298/354) is outside every `try` block. -/
theorem upload_raises_counterexample :
    (upload_test_results_to_rp allRaise "tests/case.txt" (some []) false none [] false st0).1 =
      Except.error () := rfl

/-- C2 (amended): provided the client calls made outside the `try` block
do not raise — the initial `start_test_item`, the `finish_test_item`
calls, and (when the trajectory directory is missing) the log calls —
`upload_test_results_to_rp` never raises to its caller; and whenever the
`try` block's body does raise to the outer handler (the per-file, video
and log handlers inside it swallow their own failures, so this takes a
raise those handlers do not catch), the test item is finalized with
status FAILED. -/
theorem upload_no_raise_amended (o : Oracle) (test_path : String)
    (traj : Option (List TrajEntry)) (force_stopped : Bool) (video : Option VideoF)
    (janLogs : List LogFile) (is_nightly : Bool) (s : St)
    (hstart : o.startRaises s.nStart = false)
    (hfinish : ∀ k, o.finishRaises k = false)
    (hlog : traj = none → ∀ k, o.logRaises k = false) :
    (upload_test_results_to_rp o test_path traj force_stopped video janLogs is_nightly s).1 =
      Except.ok () ∧
    (∀ entries, traj = some entries →
      (mainBlock o s.nextId entries
        (if force_stopped then "FAILED"
         else if extract_test_result_from_trajectory (some entries) then "PASSED"
         else "FAILED")
        (if force_stopped then "exceeded maximum turn limit (30 turns)"
         else if extract_test_result_from_trajectory (some entries) then
           "completed successfully with positive result"
         else "no valid success result found")
        video (fmtTestPath test_path) janLogs is_nightly
        { s with nStart := s.nStart + 1, nextId := s.nextId + 1,
                 events := s.events ++
                   [Event.startItem s.nextId (fmtTestPath test_path) "TEST"] }).1 =
        Except.error () →
      (upload_test_results_to_rp o test_path traj force_stopped video janLogs
        is_nightly s).2.events.getLast? =
        some (Event.finishItem s.nextId "FAILED")) := by
  cases traj with
  | none =>
    simp only [upload_test_results_to_rp]
    rw [rpStart_ok hstart]
    dsimp only
    rw [rpLog_ok (hlog rfl _)]
    dsimp only
    rw [rpFinish_ok (hfinish _)]
    exact ⟨rfl, fun entries heq => Option.noConfusion heq⟩
  | some entries =>
    simp only [upload_test_results_to_rp]
    rw [rpStart_ok hstart]
    dsimp only
    rcases hMB : mainBlock o s.nextId entries
        (if force_stopped then "FAILED"
         else if extract_test_result_from_trajectory (some entries) then "PASSED"
         else "FAILED")
        (if force_stopped then "exceeded maximum turn limit (30 turns)"
         else if extract_test_result_from_trajectory (some entries) then
           "completed successfully with positive result"
         else "no valid success result found")
        video (fmtTestPath test_path) janLogs is_nightly
        { s with nStart := s.nStart + 1, nextId := s.nextId + 1,
                 events := s.events ++
                   [Event.startItem s.nextId (fmtTestPath test_path) "TEST"] }
      with ⟨mres, ms⟩
    cases mres with
    | ok a =>
      dsimp only
      refine ⟨rfl, ?_⟩
      intro e2 heq hcontra
      rw [show (some entries = some e2) = (entries = e2) by simp] at heq
      subst heq
      rw [hMB] at hcontra
      exact Except.noConfusion hcontra
    | error u =>
      dsimp only
      rw [rpFinish_ok (hfinish _)]
      refine ⟨rfl, ?_⟩
      intro e2 heq hcontra
      dsimp only
      exact List.getLast?_concat _

theorem upload_no_raise_amended_witness :
    (upload_test_results_to_rp logRaiseOracle "a.txt" (some []) false none [] false
      st0).2.events.getLast? = some (Event.finishItem 0 "FAILED") :=
  (upload_no_raise_amended logRaiseOracle "a.txt" (some []) false none [] false st0
    rfl (fun _ => rfl) (fun h => Option.noConfusion h)).2 [] rfl rfl

theorem toNat_charOfNat {n : Nat} (h : n.isValidChar) : (Char.ofNat n).toNat = n := by
  simp only [Char.ofNat, dif_pos h, Char.ofNatAux, Char.toNat]
  simp [UInt32.toNat]

theorem jsize_pos : ∀ v : JValue, 1 ≤ jsize v := by
  intro v
  cases v <;> simp [jsize]

theorem skipJsonWs_ws_append {w : List Char} (r : List Char)
    (hw : ∀ c ∈ w, isJsonWs c = true) : skipJsonWs (w ++ r) = skipJsonWs r := by
  induction w with
  | nil => rfl
  | cons c cs ih =>
    rw [List.cons_append]
    simp only [skipJsonWs]
    rw [if_pos (hw c (by simp))]
    exact ih (fun x hx => hw x (List.mem_cons_of_mem c hx))

theorem skipJsonWs_not_ws {c : Char} (r : List Char) (hc : isJsonWs c = false) :
    skipJsonWs (c :: r) = c :: r := by
  simp [skipJsonWs, hc]

theorem indentChars_ws (d : Nat) : ∀ c ∈ indentChars d, isJsonWs c = true := by
  intro c hc
  have : c = ' ' := List.eq_of_mem_replicate hc
  subst this
  decide

theorem digitChar_toNat {m : Nat} (h : m < 10) : (digitChar m).toNat = 48 + m :=
  toNat_charOfNat (Or.inl (by omega))

theorem digitChar_isDigit {m : Nat} (h : m < 10) : isDigitB (digitChar m) = true := by
  simp only [isDigitB, digitChar_toNat h]
  simp only [Bool.and_eq_true, decide_eq_true_eq]
  omega

theorem char_eq_iff_toNat {c e : Char} : c = e ↔ c.toNat = e.toNat := by
  constructor
  · intro h; rw [h]
  · intro h
    have := Char.ofNat_toNat c
    rw [h, Char.ofNat_toNat e] at this
    exact this.symm

theorem digit_not_jsonWs {c : Char} (h : isDigitB c = true) : isJsonWs c = false := by
  simp only [isDigitB, Bool.and_eq_true, decide_eq_true_eq] at h
  simp only [isJsonWs, Bool.or_eq_false_iff, decide_eq_false_iff_not]
  refine ⟨⟨⟨?_, ?_⟩, ?_⟩, ?_⟩ <;>
    · intro he
      subst he
      revert h
      decide

theorem hexVal_hexDigitChar : ∀ m, m < 16 → hexVal (hexDigitChar m) = some m := by decide

theorem hex4Val_hex4 {n : Nat} (h : n < 65536) :
    hex4Val (hexDigitChar (n / 4096 % 16)) (hexDigitChar (n / 256 % 16))
      (hexDigitChar (n / 16 % 16)) (hexDigitChar (n % 16)) = some n := by
  have h1 := hexVal_hexDigitChar (n / 4096 % 16) (by omega)
  have h2 := hexVal_hexDigitChar (n / 256 % 16) (by omega)
  have h3 := hexVal_hexDigitChar (n / 16 % 16) (by omega)
  have h4 := hexVal_hexDigitChar (n % 16) (by omega)
  simp only [hex4Val, h1, h2, h3, h4]
  congr 1
  omega

theorem parseStringBody_step_short (fuel : Nat) (acc t : List Char) :
    (parseStringBody (fuel + 1) acc ('\\' :: '"' :: t) = parseStringBody fuel ('"' :: acc) t) ∧
    (parseStringBody (fuel + 1) acc ('\\' :: '\\' :: t) = parseStringBody fuel ('\\' :: acc) t) ∧
    (parseStringBody (fuel + 1) acc ('\\' :: 'b' :: t) = parseStringBody fuel ('\x08' :: acc) t) ∧
    (parseStringBody (fuel + 1) acc ('\\' :: 'f' :: t) = parseStringBody fuel ('\x0c' :: acc) t) ∧
    (parseStringBody (fuel + 1) acc ('\\' :: 'n' :: t) = parseStringBody fuel ('\n' :: acc) t) ∧
    (parseStringBody (fuel + 1) acc ('\\' :: 'r' :: t) = parseStringBody fuel ('\r' :: acc) t) ∧
    (parseStringBody (fuel + 1) acc ('\\' :: 't' :: t) = parseStringBody fuel ('\t' :: acc) t) :=
  ⟨rfl, rfl, rfl, rfl, rfl, rfl, rfl⟩

theorem parseStringBody_step_plain (fuel : Nat) (acc t : List Char) (c : Char)
    (h1 : ¬ c = '"') (h2 : ¬ c = '\\') (h3 : ¬ c.toNat < 32) :
    parseStringBody (fuel + 1) acc (c :: t) = parseStringBody fuel (c :: acc) t := by
  simp only [parseStringBody]
  simp [h1, h2, h3]

theorem parseStringBody_step_u (fuel : Nat) (acc t : List Char) (v : Nat) (hv : v < 65536)
    (hs1 : ¬ (55296 ≤ v ∧ v < 56320)) (hs2 : ¬ (56320 ≤ v ∧ v < 57344)) :
    parseStringBody (fuel + 1) acc ('\\' :: 'u' :: hex4 v ++ t)
      = parseStringBody fuel (Char.ofNat v :: acc) t := by
  simp only [hex4, List.cons_append, List.nil_append, parseStringBody]
  rw [hex4Val_hex4 hv]
  have b1 : (55296 ≤ v && v < 56320) = false := by simp [Bool.and_eq_false_iff]; omega
  have b2 : (56320 ≤ v && v < 57344) = false := by simp [Bool.and_eq_false_iff]; omega
  simp [b1, b2]

theorem parseStringBody_step_pair (fuel : Nat) (acc t : List Char) (v w : Nat)
    (hv1 : 55296 ≤ v) (hv2 : v < 56320) (hw1 : 56320 ≤ w) (hw2 : w < 57344) :
    parseStringBody (fuel + 1) acc ('\\' :: 'u' :: hex4 v ++ '\\' :: 'u' :: hex4 w ++ t)
      = parseStringBody fuel (Char.ofNat (65536 + (v - 55296) * 1024 + (w - 56320)) :: acc) t := by
  simp only [hex4, List.cons_append, List.nil_append, parseStringBody]
  have hv' := hex4Val_hex4 (by omega : v < 65536)
  have hw' := hex4Val_hex4 (by omega : w < 65536)
  have b1 : (55296 ≤ v && v < 56320) = true := by simp; omega
  have b2 : (56320 ≤ w && w < 57344) = true := by simp; omega
  simp [hv', hw', b1, b2]

theorem parseStringBody_escapeChar (c : Char) (fuel : Nat) (acc t : List Char) :
    parseStringBody (fuel + 1) acc (escapeChar c ++ t) = parseStringBody fuel (c :: acc) t := by
  by_cases h1 : c = '"'
  · subst h1
    exact (parseStringBody_step_short fuel acc t).1
  by_cases h2 : c = '\\'
  · subst h2
    rw [show escapeChar '\\' ++ t = '\\' :: '\\' :: t from rfl]
    exact (parseStringBody_step_short fuel acc t).2.1
  by_cases h3 : c = '\x08'
  · subst h3
    rw [show escapeChar '\x08' ++ t = '\\' :: 'b' :: t from rfl]
    exact (parseStringBody_step_short fuel acc t).2.2.1
  by_cases h4 : c = '\x0c'
  · subst h4
    rw [show escapeChar '\x0c' ++ t = '\\' :: 'f' :: t from rfl]
    exact (parseStringBody_step_short fuel acc t).2.2.2.1
  by_cases h5 : c = '\n'
  · subst h5
    rw [show escapeChar '\n' ++ t = '\\' :: 'n' :: t from rfl]
    exact (parseStringBody_step_short fuel acc t).2.2.2.2.1
  by_cases h6 : c = '\r'
  · subst h6
    rw [show escapeChar '\r' ++ t = '\\' :: 'r' :: t from rfl]
    exact (parseStringBody_step_short fuel acc t).2.2.2.2.2.1
  by_cases h7 : c = '\t'
  · subst h7
    rw [show escapeChar '\t' ++ t = '\\' :: 't' :: t from rfl]
    exact (parseStringBody_step_short fuel acc t).2.2.2.2.2.2
  have hv : Nat.isValidChar c.toNat := c.valid
  by_cases h8 : (32 ≤ c.toNat && c.toNat ≤ 126) = true
  · have hesc : escapeChar c = [c] := by
      simp [escapeChar, h1, h2, h3, h4, h5, h6, h7, h8]
    rw [hesc]
    simp only [Bool.and_eq_true, decide_eq_true_eq] at h8
    exact parseStringBody_step_plain fuel acc t c h1 h2 (by omega)
  · have hval : c.toNat < 55296 ∨ (57343 < c.toNat ∧ c.toNat < 1114112) := by
      rcases hv with h | h
      · exact Or.inl h
      · exact Or.inr h
    by_cases h9 : c.toNat < 65536
    · have hesc : escapeChar c = '\\' :: 'u' :: hex4 c.toNat := by
        simp [escapeChar, h1, h2, h3, h4, h5, h6, h7, h8, h9]
      rw [hesc, show ('\\' :: 'u' :: hex4 c.toNat) ++ t = '\\' :: 'u' :: hex4 c.toNat ++ t
        from by simp]
      rw [parseStringBody_step_u fuel acc t c.toNat h9 (by omega) (by omega)]
      rw [Char.ofNat_toNat]
    · have hesc : escapeChar c =
          '\\' :: 'u' :: hex4 (55296 + (c.toNat - 65536) / 1024) ++
            '\\' :: 'u' :: hex4 (56320 + (c.toNat - 65536) % 1024) := by
        simp [escapeChar, h1, h2, h3, h4, h5, h6, h7, h8, h9]
      rw [hesc]
      have hmod : (c.toNat - 65536) % 1024 < 1024 := Nat.mod_lt _ (by omega)
      have hdiv : (c.toNat - 65536) / 1024 < 1024 := by
        have : c.toNat - 65536 < 1048576 := by omega
        omega
      rw [parseStringBody_step_pair fuel acc t
        (55296 + (c.toNat - 65536) / 1024) (56320 + (c.toNat - 65536) % 1024)
        (by omega) (by omega) (by omega) (by omega)]
      have hrec : 65536 + (55296 + (c.toNat - 65536) / 1024 - 55296) * 1024 +
          (56320 + (c.toNat - 65536) % 1024 - 56320) = c.toNat := by
        omega
      rw [hrec, Char.ofNat_toNat]

theorem escapeChar_length_pos (c : Char) : 0 < (escapeChar c).length := by
  simp only [escapeChar]
  repeat' split
  all_goals simp [hex4]

theorem escapeChars_length (cs : List Char) : cs.length ≤ (escapeChars cs).length := by
  induction cs with
  | nil => simp [escapeChars]
  | cons c cs ih =>
    have := escapeChar_length_pos c
    simp only [escapeChars, List.length_append, List.length_cons]
    omega

theorem string_mk_data (s : String) : String.mk s.data = s := rfl

theorem parseStringBody_escapeChars :
    ∀ (cs : List Char) (fuel : Nat) (acc t : List Char), cs.length < fuel →
      parseStringBody fuel acc (escapeChars cs ++ '"' :: t)
        = some (String.mk (acc.reverse ++ cs), t) := by
  intro cs
  induction cs with
  | nil =>
    intro fuel acc t h
    match fuel, h with
    | f + 1, _ =>
      simp only [escapeChars, List.nil_append, List.append_nil]
      rfl
  | cons c cs ih =>
    intro fuel acc t h
    match fuel, h with
    | f + 1, h =>
      simp only [escapeChars, List.append_assoc]
      rw [parseStringBody_escapeChar c f acc (escapeChars cs ++ '"' :: t)]
      rw [ih f (c :: acc) t (by simp at h; omega)]
      simp

theorem natReprAux_acc : ∀ (fuel n : Nat) (acc : List Char),
    natReprAux fuel n acc = natReprAux fuel n [] ++ acc := by
  intro fuel
  induction fuel with
  | zero => intro n acc; rfl
  | succ f ih =>
    intro n acc
    by_cases h : n < 10
    · simp [natReprAux, h]
    · simp only [natReprAux, if_neg h]
      rw [ih (n / 10) (digitChar (n % 10) :: acc), ih (n / 10) [digitChar (n % 10)]]
      simp

theorem natReprAux_fuel : ∀ (n f1 f2 : Nat) (acc : List Char), n < f1 → n < f2 →
    natReprAux f1 n acc = natReprAux f2 n acc := by
  intro n
  induction n using Nat.strong_induction_on with
  | _ n ih =>
    intro f1 f2 acc h1 h2
    match f1, h1, f2, h2 with
    | g1 + 1, h1, g2 + 1, h2 =>
      by_cases h : n < 10
      · simp [natReprAux, h]
      · simp only [natReprAux, if_neg h]
        exact ih (n / 10) (by omega) g1 g2 _ (by omega) (by omega)

theorem natRepr_small {n : Nat} (h : n < 10) : natRepr n = [digitChar n] := by
  simp [natRepr, natReprAux, h]

theorem natRepr_step {n : Nat} (h : 10 ≤ n) :
    natRepr n = natRepr (n / 10) ++ [digitChar (n % 10)] := by
  have e1 : natRepr n = natReprAux n (n / 10) [digitChar (n % 10)] := by
    simp only [natRepr, natReprAux, if_neg (by omega : ¬ n < 10)]
  rw [e1, natReprAux_acc n (n / 10) [digitChar (n % 10)],
    natReprAux_fuel (n / 10) n (n / 10 + 1) [] (by omega) (by omega)]
  rfl

theorem natRepr_all_digits : ∀ n : Nat, ∀ c ∈ natRepr n, isDigitB c = true := by
  intro n
  induction n using Nat.strong_induction_on with
  | _ n ih =>
    intro c hc
    by_cases h : n < 10
    · rw [natRepr_small h] at hc
      simp at hc
      subst hc
      exact digitChar_isDigit h
    · rw [natRepr_step (by omega)] at hc
      rcases List.mem_append.mp hc with hc | hc
      · exact ih (n / 10) (by omega) c hc
      · simp at hc
        subst hc
        exact digitChar_isDigit (by omega)

theorem natRepr_head : ∀ n : Nat, 1 ≤ n →
    ∃ c cs, natRepr n = c :: cs ∧ isDigitB c = true ∧ c ≠ '0' := by
  intro n
  induction n using Nat.strong_induction_on with
  | _ n ih =>
    intro h1
    by_cases h : n < 10
    · refine ⟨digitChar n, [], natRepr_small h, digitChar_isDigit h, ?_⟩
      intro he
      have h2 := congrArg Char.toNat he
      rw [digitChar_toNat h] at h2
      have h0 : ('0').toNat = 48 := rfl
      rw [h0] at h2
      omega
    · obtain ⟨c, cs, hrep, hdig, hz⟩ := ih (n / 10) (by omega) (by omega)
      exact ⟨c, cs ++ [digitChar (n % 10)],
        by rw [natRepr_step (by omega), hrep]; rfl, hdig, hz⟩

theorem foldl_natRepr : ∀ (n acc : Nat),
    List.foldl (fun a c => a * 10 + (c.toNat - 48)) acc (natRepr n)
      = acc * 10 ^ (natRepr n).length + n := by
  intro n
  induction n using Nat.strong_induction_on with
  | _ n ih =>
    intro acc
    by_cases h : n < 10
    · rw [natRepr_small h]
      simp [digitChar_toNat h]
    · rw [natRepr_step (by omega)]
      rw [List.foldl_append, ih (n / 10) (by omega) acc]
      simp only [List.foldl_cons, List.foldl_nil, List.length_append, List.length_cons,
        List.length_nil]
      rw [digitChar_toNat (by omega : n % 10 < 10)]
      have hd : 48 + n % 10 - 48 = n % 10 := by omega
      rw [hd]
      have hmod : n / 10 * 10 + n % 10 = n := by omega
      set k := 10 ^ (natRepr (n / 10)).length with hk
      have hpow : 10 ^ ((natRepr (n / 10)).length + (0 + 1)) = k * 10 := by
        rw [hk]
        ring
      rw [hpow]
      have : (acc * k + n / 10) * 10 = acc * (k * 10) + n / 10 * 10 := by ring
      omega

theorem parseDigitsAcc_append : ∀ (ds : List Char) (acc : Nat) (r : List Char),
    (∀ c ∈ ds, isDigitB c = true) → headIsDigit r = false →
    parseDigitsAcc acc (ds ++ r)
      = (List.foldl (fun a c => a * 10 + (c.toNat - 48)) acc ds, r) := by
  intro ds
  induction ds with
  | nil =>
    intro acc r hds hr
    cases r with
    | nil => rfl
    | cons c cs =>
      have hc : isDigitB c = false := by simpa [headIsDigit] using hr
      simp only [List.nil_append, parseDigitsAcc, hc]
      simp
  | cons d ds ih =>
    intro acc r hds hr
    simp only [List.cons_append, parseDigitsAcc, hds d (by simp)]
    simp only [if_true, List.append_eq]
    rw [ih _ r (fun c hc => hds c (by simp [hc])) hr]
    simp

theorem parseNatNum_natRepr : ∀ (n : Nat) (r : List Char), headIsDigit r = false →
    parseNatNum (natRepr n ++ r) = some (n, r) := by
  intro n r hr
  by_cases h0 : n = 0
  · subst h0
    rw [show natRepr 0 = ['0'] from rfl]
    cases r with
    | nil => rfl
    | cons c cs =>
      have hc : isDigitB c = false := by simpa [headIsDigit] using hr
      simp [parseNatNum, hc]
      decide
  · obtain ⟨c, cs, hrep, hdig, hz⟩ := natRepr_head n (by omega)
    rw [hrep, List.cons_append]
    simp only [parseNatNum, hdig, if_true, if_neg hz]
    rw [parseDigitsAcc_append cs (c.toNat - 48) r
      (fun x hx => natRepr_all_digits n x (by rw [hrep]; exact List.mem_cons_of_mem _ hx)) hr]
    have hv := foldl_natRepr n 0
    rw [hrep] at hv
    simp only [List.foldl_cons, Nat.zero_mul, Nat.zero_add] at hv
    rw [hv]

theorem parseIntNum_intRepr : ∀ (i : Int) (r : List Char), headIsDigit r = false →
    parseIntNum (intRepr i ++ r) = some (i, r) := by
  intro i r hr
  by_cases hneg : i < 0
  · rw [show intRepr i = '-' :: natRepr i.natAbs from by simp [intRepr, hneg]]
    rw [List.cons_append]
    rw [show parseIntNum ('-' :: (natRepr i.natAbs ++ r))
        = (parseNatNum (natRepr i.natAbs ++ r)).map (fun p => (-(p.1 : Int), p.2)) from rfl]
    rw [parseNatNum_natRepr _ r hr]
    simp only [Option.map_some']
    have habs : -((i.natAbs : Int)) = i := by omega
    rw [habs]
  · rw [show intRepr i = natRepr i.natAbs from by simp [intRepr, hneg]]
    by_cases h0 : i.natAbs = 0
    · have h00 : i = 0 := by omega
      subst h00
      rw [show natRepr ((0 : Int)).natAbs = ['0'] from rfl]
      rw [show (['0'] : List Char) ++ r = '0' :: r from rfl]
      have hp := parseNatNum_natRepr 0 r hr
      rw [show natRepr 0 ++ r = '0' :: r from rfl] at hp
      rw [show parseIntNum ('0' :: r)
          = (parseNatNum ('0' :: r)).map (fun p => ((p.1 : Int), p.2)) from rfl]
      rw [hp]
      rfl
    · obtain ⟨c, cs, hrep, hdig, hz⟩ := natRepr_head i.natAbs (by omega)
      rw [hrep]
      have hcne : ¬ c = '-' := by
        intro he
        simp only [isDigitB, Bool.and_eq_true, decide_eq_true_eq] at hdig
        have h2 := congrArg Char.toNat he
        have h3 : ('-').toNat = 45 := rfl
        rw [h3] at h2
        omega
      rw [parseIntNum.eq_def]
      simp only [List.cons_append]
      simp [hcne]
      rw [show c :: (cs ++ r) = (c :: cs) ++ r from rfl, ← hrep, parseNatNum_natRepr _ r hr]
      have habs : ((i.natAbs : Int)) = i := by omega
      simp [habs]

mutual
theorem jsize_le_dumpsVal : ∀ (v : JValue) (d : Nat), jsize v ≤ (dumpsVal v d).length + 1
  | JValue.null, _ => by simp [jsize]
  | JValue.bool b, _ => by cases b <;> simp [jsize]
  | JValue.num i, _ => by simp [jsize]
  | JValue.str s, _ => by simp [jsize]
  | JValue.arr [], _ => by simp [jsize, jsizeItems, dumpsVal]
  | JValue.arr (x :: xs), d => by
    have h1 := jsize_le_dumpsVal x (d + 1)
    have h2 := jsizeItems_le_dumpsItems xs (d + 1)
    simp only [jsize, jsizeItems, dumpsVal, List.length_cons, List.length_append]
    omega
  | JValue.obj [], _ => by simp [jsize, jsizeMembers, dumpsVal]
  | JValue.obj (p :: ps), d => by
    have h1 := jsize_le_dumpsVal p.2 (d + 1)
    have h2 := jsizeMembers_le_dumpsMembers ps (d + 1)
    simp only [jsize, jsizeMembers, dumpsVal, List.length_cons, List.length_append]
    omega

theorem jsizeItems_le_dumpsItems : ∀ (xs : List JValue) (d : Nat),
    jsizeItems xs ≤ (dumpsItems xs d).length + 1
  | [], _ => by simp [jsizeItems, dumpsItems]
  | x :: xs, d => by
    have h1 := jsize_le_dumpsVal x d
    have h2 := jsizeItems_le_dumpsItems xs d
    simp only [jsizeItems, dumpsItems, List.length_cons, List.length_append]
    omega

theorem jsizeMembers_le_dumpsMembers : ∀ (ps : List (String × JValue)) (d : Nat),
    jsizeMembers ps ≤ (dumpsMembers ps d).length + 1
  | [], _ => by simp [jsizeMembers, dumpsMembers]
  | p :: ps, d => by
    have h1 := jsize_le_dumpsVal p.2 d
    have h2 := jsizeMembers_le_dumpsMembers ps d
    simp only [jsizeMembers, dumpsMembers, List.length_cons, List.length_append]
    omega
end

theorem char_ne_of_toNat_ne {c e : Char} (h : c.toNat ≠ e.toNat) : c ≠ e :=
  fun he => h (congrArg Char.toNat he)

theorem isDigitB_range {c : Char} (h : isDigitB c = true) :
    48 ≤ c.toNat ∧ c.toNat ≤ 57 := by
  simpa [isDigitB] using h

theorem dumpsVal_head (v : JValue) (d : Nat) : ∃ c t, dumpsVal v d = c :: t ∧
    isJsonWs c = false ∧ c ≠ ']' ∧ c ≠ '\x7d' := by
  cases v with
  | null => refine ⟨'n', _, rfl, ?_, ?_, ?_⟩ <;> decide
  | bool b =>
    cases b with
    | true => refine ⟨'t', _, rfl, ?_, ?_, ?_⟩ <;> decide
    | false => refine ⟨'f', _, rfl, ?_, ?_, ?_⟩ <;> decide
  | str s => refine ⟨'"', _, rfl, ?_, ?_, ?_⟩ <;> decide
  | num i =>
    by_cases hneg : i < 0
    · refine ⟨'-', natRepr i.natAbs, ?_, by decide, by decide, by decide⟩
      simp [dumpsVal, intRepr, hneg]
    · have hrepr : dumpsVal (JValue.num i) d = natRepr i.natAbs := by
        simp [dumpsVal, intRepr, hneg]
      by_cases h0 : i.natAbs = 0
      · rw [hrepr, h0]
        exact ⟨'0', [], by decide, by decide, by decide, by decide⟩
      · obtain ⟨c, cs, hrep, hdig, hz⟩ := natRepr_head i.natAbs (by omega)
        obtain ⟨hlo, hhi⟩ := isDigitB_range hdig
        refine ⟨c, cs, by rw [hrepr, hrep], digit_not_jsonWs hdig, ?_, ?_⟩
        · have h93 : (']').toNat = 93 := rfl
          exact char_ne_of_toNat_ne (by rw [h93]; omega)
        · have h125 : ('\x7d').toNat = 125 := rfl
          exact char_ne_of_toNat_ne (by rw [h125]; omega)
  | arr xs =>
    cases xs with
    | nil => refine ⟨'[', _, rfl, ?_, ?_, ?_⟩ <;> decide
    | cons x xs => refine ⟨'[', _, rfl, ?_, ?_, ?_⟩ <;> decide
  | obj ps =>
    cases ps with
    | nil => refine ⟨'\x7b', _, rfl, ?_, ?_, ?_⟩ <;> decide
    | cons p ps => refine ⟨'\x7b', _, rfl, ?_, ?_, ?_⟩ <;> decide

theorem dumpsItems_head_not_digit (xs : List JValue) (d : Nat) (w : List Char) :
    headIsDigit (dumpsItems xs d ++ '\n' :: w) = false := by
  cases xs with
  | nil => simp [dumpsItems, headIsDigit]; decide
  | cons x xs => simp [dumpsItems, headIsDigit]; decide

theorem dumpsMembers_head_not_digit (ps : List (String × JValue)) (d : Nat) (w : List Char) :
    headIsDigit (dumpsMembers ps d ++ '\n' :: w) = false := by
  cases ps with
  | nil => simp [dumpsMembers, headIsDigit]; decide
  | cons p ps => simp [dumpsMembers, headIsDigit]; decide

theorem skipJsonWs_nl_indent (k : Nat) (X : List Char) :
    skipJsonWs ('\n' :: (indentChars k ++ X)) = skipJsonWs X := by
  rw [show ('\n' :: (indentChars k ++ X)) = ('\n' :: indentChars k) ++ X from by simp]
  refine skipJsonWs_ws_append X ?_
  intro c hc
  rcases List.mem_cons.mp hc with h | h
  · subst h; decide
  · exact indentChars_ws k c h

theorem parse_dumps_main : ∀ fuel : Nat,
    (∀ (v : JValue) (d : Nat) (r : List Char), jsize v ≤ fuel → headIsDigit r = false →
        parseVal fuel (dumpsVal v d ++ r) = some (v, r)) ∧
    (∀ (x : JValue) (xs : List JValue) (d : Nat) (r : List Char), jsizeItems (x :: xs) ≤ fuel →
        parseItems fuel (dumpsVal x (d + 1) ++ (dumpsItems xs (d + 1) ++
          '\n' :: (indentChars d ++ ']' :: r))) = some (x :: xs, r)) ∧
    (∀ (p : String × JValue) (ps : List (String × JValue)) (d : Nat) (r : List Char),
        jsizeMembers (p :: ps) ≤ fuel →
        parseMembers fuel (quoteString p.1 ++ ':' :: ' ' :: (dumpsVal p.2 (d + 1) ++
          (dumpsMembers ps (d + 1) ++ '\n' :: (indentChars d ++ '\x7d' :: r))))
          = some (p :: ps, r)) := by
  intro fuel
  induction fuel with
  | zero =>
    refine ⟨?_, ?_, ?_⟩
    · intro v d r hsz _
      have := jsize_pos v
      omega
    · intro x xs d r hsz
      simp only [jsizeItems] at hsz
      omega
    · intro p ps d r hsz
      simp only [jsizeMembers] at hsz
      omega
  | succ g ih =>
    obtain ⟨ihP, ihQ, ihR⟩ := ih
    refine ⟨?_, ?_, ?_⟩
    · intro v d r hsz hr
      cases v with
      | null => rfl
      | bool b => cases b <;> rfl
      | num i =>
        have hhead : ∃ c cs, intRepr i = c :: cs ∧ (isDigitB c = true ∨ c = '-') := by
          by_cases hneg : i < 0
          · exact ⟨'-', natRepr i.natAbs, by simp [intRepr, hneg], Or.inr rfl⟩
          · have hrepr : intRepr i = natRepr i.natAbs := by simp [intRepr, hneg]
            by_cases h0 : i.natAbs = 0
            · rw [hrepr, h0]
              exact ⟨'0', [], rfl, Or.inl (by decide)⟩
            · obtain ⟨c, cs, hrep, hdig, _⟩ := natRepr_head i.natAbs (by omega)
              exact ⟨c, cs, by rw [hrepr, hrep], Or.inl hdig⟩
        obtain ⟨c, cs, hrep, hc⟩ := hhead
        have hrange : c.toNat = 45 ∨ (48 ≤ c.toNat ∧ c.toNat ≤ 57) := by
          rcases hc with h | h
          · exact Or.inr (isDigitB_range h)
          · subst h; exact Or.inl rfl
        have hn1 : ¬ c = 'n' :=
          char_ne_of_toNat_ne (by have h : ('n').toNat = 110 := rfl; omega)
        have hn2 : ¬ c = 't' :=
          char_ne_of_toNat_ne (by have h : ('t').toNat = 116 := rfl; omega)
        have hn3 : ¬ c = 'f' :=
          char_ne_of_toNat_ne (by have h : ('f').toNat = 102 := rfl; omega)
        have hn4 : ¬ c = '"' :=
          char_ne_of_toNat_ne (by have h : ('"').toNat = 34 := rfl; omega)
        have hn5 : ¬ c = '[' :=
          char_ne_of_toNat_ne (by have h : ('[').toNat = 91 := rfl; omega)
        have hn6 : ¬ c = '\x7b' :=
          char_ne_of_toNat_ne (by have h : ('\x7b').toNat = 123 := rfl; omega)
        have hcond : (isDigitB c || c = '-') = true := by
          rcases hc with h | h
          · rw [h]; rfl
          · subst h; simp
        rw [show dumpsVal (JValue.num i) d = intRepr i from rfl, hrep, List.cons_append]
        simp only [parseVal]
        rw [if_neg hn1, if_neg hn2, if_neg hn3, if_neg hn4, if_neg hn5, if_neg hn6,
          if_pos hcond]
        rw [show c :: (cs ++ r) = (c :: cs) ++ r from rfl, ← hrep,
          parseIntNum_intRepr i r hr]
        rfl
      | str s =>
        rw [show dumpsVal (JValue.str s) d ++ r
            = '"' :: (escapeChars s.data ++ '"' :: r) from by simp [dumpsVal, quoteString]]
        simp only [parseVal]
        rw [if_neg (by decide), if_neg (by decide), if_neg (by decide)]
        simp only [if_true]
        have hlen : s.data.length < (escapeChars s.data ++ '"' :: r).length + 1 := by
          have := escapeChars_length s.data
          simp only [List.length_append, List.length_cons]
          omega
        rw [parseStringBody_escapeChars s.data _ [] r hlen]
        simp only [List.reverse_nil, List.nil_append, Option.map_some']
      | arr xs =>
        cases xs with
        | nil => rfl
        | cons x xs =>
          have hshape : dumpsVal (JValue.arr (x :: xs)) d ++ r
              = '[' :: '\n' :: (indentChars (d + 1) ++ (dumpsVal x (d + 1) ++
                  (dumpsItems xs (d + 1) ++ '\n' :: (indentChars d ++ ']' :: r)))) := by
            simp [dumpsVal]
          rw [hshape]
          simp only [parseVal]
          rw [if_neg (by decide), if_neg (by decide), if_neg (by decide),
            if_neg (by decide)]
          simp only [if_true]
          rw [skipJsonWs_nl_indent (d + 1) _]
          obtain ⟨c1, t1, hxd, hws1, hne1, _⟩ := dumpsVal_head x (d + 1)
          rw [hxd, List.cons_append, skipJsonWs_not_ws _ hws1]
          split
          · rename_i r' heq
            exact absurd (List.head_eq_of_cons_eq heq) hne1
          · rw [← List.cons_append, ← hxd]
            rw [ihQ x xs d r (by simp only [jsize, jsizeItems] at hsz ⊢; omega)]
            rfl
      | obj ps =>
        cases ps with
        | nil => rfl
        | cons p ps =>
          have hshape : dumpsVal (JValue.obj (p :: ps)) d ++ r
              = '\x7b' :: '\n' :: (indentChars (d + 1) ++ (quoteString p.1 ++
                  ':' :: ' ' :: (dumpsVal p.2 (d + 1) ++ (dumpsMembers ps (d + 1) ++
                    '\n' :: (indentChars d ++ '\x7d' :: r))))) := by
            simp [dumpsVal]
          rw [hshape]
          simp only [parseVal]
          rw [if_neg (by decide), if_neg (by decide), if_neg (by decide),
            if_neg (by decide), if_neg (by decide)]
          simp only [if_true]
          rw [skipJsonWs_nl_indent (d + 1) _]
          have hq : quoteString p.1 ++ ':' :: ' ' :: (dumpsVal p.2 (d + 1) ++
              (dumpsMembers ps (d + 1) ++ '\n' :: (indentChars d ++ '\x7d' :: r)))
              = '"' :: (escapeChars p.1.data ++ '"' :: ':' :: ' ' :: (dumpsVal p.2 (d + 1) ++
                  (dumpsMembers ps (d + 1) ++ '\n' :: (indentChars d ++ '\x7d' :: r)))) := by
            simp [quoteString]
          rw [hq, skipJsonWs_not_ws _ (by decide)]
          split
          · rename_i r' heq
            exact absurd (List.head_eq_of_cons_eq heq) (by decide)
          · rw [← hq]
            rw [ihR p ps d r (by simp only [jsize, jsizeMembers] at hsz ⊢; omega)]
            rfl
    · intro x xs d r hsz
      simp only [parseItems]
      rw [ihP x (d + 1) (dumpsItems xs (d + 1) ++ '\n' :: (indentChars d ++ ']' :: r))
        (by simp only [jsizeItems] at hsz; omega)
        (dumpsItems_head_not_digit xs (d + 1) _)]
      simp only []
      cases xs with
      | nil =>
        simp only [dumpsItems, List.nil_append]
        rw [skipJsonWs_nl_indent d _, skipJsonWs_not_ws _ (by decide)]
        simp only []
      | cons y ys =>
        have hshape : dumpsItems (y :: ys) (d + 1) ++ '\n' :: (indentChars d ++ ']' :: r)
            = ',' :: '\n' :: (indentChars (d + 1) ++ (dumpsVal y (d + 1) ++
                (dumpsItems ys (d + 1) ++ '\n' :: (indentChars d ++ ']' :: r)))) := by
          simp [dumpsItems]
        rw [hshape, skipJsonWs_not_ws _ (by decide)]
        simp only []
        rw [skipJsonWs_nl_indent (d + 1) _]
        obtain ⟨c2, t2, hyd, hws2, _, _⟩ := dumpsVal_head y (d + 1)
        rw [hyd, List.cons_append, skipJsonWs_not_ws _ hws2, ← List.cons_append, ← hyd]
        rw [ihQ y ys d r (by simp only [jsizeItems] at hsz ⊢; omega)]
    · intro p ps d r hsz
      have hq : quoteString p.1 ++ ':' :: ' ' :: (dumpsVal p.2 (d + 1) ++
          (dumpsMembers ps (d + 1) ++ '\n' :: (indentChars d ++ '\x7d' :: r)))
          = '"' :: (escapeChars p.1.data ++ '"' :: ':' :: ' ' :: (dumpsVal p.2 (d + 1) ++
              (dumpsMembers ps (d + 1) ++ '\n' :: (indentChars d ++ '\x7d' :: r)))) := by
        simp [quoteString]
      rw [hq]
      simp only [parseMembers]
      have hlen : p.1.data.length < (escapeChars p.1.data ++ '"' :: ':' :: ' ' ::
          (dumpsVal p.2 (d + 1) ++ (dumpsMembers ps (d + 1) ++
            '\n' :: (indentChars d ++ '\x7d' :: r)))).length + 1 := by
        have := escapeChars_length p.1.data
        simp only [List.length_append, List.length_cons]
        omega
      rw [parseStringBody_escapeChars p.1.data _ [] _ hlen]
      simp only [List.reverse_nil, List.nil_append]
      rw [string_mk_data]
      rw [skipJsonWs_not_ws _ (by decide)]
      simp only []
      rw [show skipJsonWs (' ' :: (dumpsVal p.2 (d + 1) ++ (dumpsMembers ps (d + 1) ++
          '\n' :: (indentChars d ++ '\x7d' :: r))))
          = skipJsonWs (dumpsVal p.2 (d + 1) ++ (dumpsMembers ps (d + 1) ++
            '\n' :: (indentChars d ++ '\x7d' :: r))) from rfl]
      obtain ⟨c3, t3, hpd, hws3, _, _⟩ := dumpsVal_head p.2 (d + 1)
      rw [hpd, List.cons_append, skipJsonWs_not_ws _ hws3, ← List.cons_append, ← hpd]
      rw [ihP p.2 (d + 1) (dumpsMembers ps (d + 1) ++ '\n' :: (indentChars d ++ '\x7d' :: r))
        (by simp only [jsizeMembers] at hsz; omega)
        (dumpsMembers_head_not_digit ps (d + 1) _)]
      simp only []
      cases ps with
      | nil =>
        simp only [dumpsMembers, List.nil_append]
        rw [skipJsonWs_nl_indent d _, skipJsonWs_not_ws _ (by decide)]
        simp only []
      | cons q qs =>
        have hshape : dumpsMembers (q :: qs) (d + 1) ++ '\n' :: (indentChars d ++ '\x7d' :: r)
            = ',' :: '\n' :: (indentChars (d + 1) ++ (quoteString q.1 ++
                ':' :: ' ' :: (dumpsVal q.2 (d + 1) ++ (dumpsMembers qs (d + 1) ++
                  '\n' :: (indentChars d ++ '\x7d' :: r))))) := by
          simp [dumpsMembers]
        rw [hshape, skipJsonWs_not_ws _ (by decide)]
        simp only []
        rw [skipJsonWs_nl_indent (d + 1) _]
        have hq2 : quoteString q.1 ++ ':' :: ' ' :: (dumpsVal q.2 (d + 1) ++
            (dumpsMembers qs (d + 1) ++ '\n' :: (indentChars d ++ '\x7d' :: r)))
            = '"' :: (escapeChars q.1.data ++ '"' :: ':' :: ' ' :: (dumpsVal q.2 (d + 1) ++
                (dumpsMembers qs (d + 1) ++ '\n' :: (indentChars d ++ '\x7d' :: r)))) := by
          simp [quoteString]
        rw [hq2, skipJsonWs_not_ws _ (by decide), ← hq2]
        rw [ihR q qs d r (by simp only [jsizeMembers] at hsz ⊢; omega)]

/-- C9: round-trip — for every JSON value (as loaded from a `.json`
artifact), re-parsing the pretty-printed text produced for its log entry
(`json.dumps(data, indent=2)`, line 36) with `json.loads` yields the
original value. -/
theorem json_roundtrip (v : JValue) : json_loads (json_dumps_indent2 v) = some v := by
  simp only [json_loads, json_dumps_indent2]
  obtain ⟨c, t, hvd, hws, _, _⟩ := dumpsVal_head v 0
  rw [hvd, skipJsonWs_not_ws _ hws, ← hvd]
  have hP := (parse_dumps_main ((dumpsVal v 0).length + 1)).1 v 0 []
    (by have := jsize_le_dumpsVal v 0; omega) rfl
  rw [List.append_nil] at hP
  rw [hP]
  rfl
